import Mathlib

/-
Verification of the hydro repository (hydro-rs): a shallow embedding in
Lean 4 of the SCE-UA calibration engine, the GR4J rainfall-runoff model,
and the metric functions, together with proofs of the specification
claims.

Modelling conventions:
  * f64 arithmetic inside the optimizer is embedded as exact rational
    arithmetic; objective values, which can be NaN or infinite, are
    embedded as the inductive type `F` (a rational extended with
    `nan`, `inf`, `ninf`, ordered by Rust total_cmp on f64: only the
    positive NaN, which is the one float computations produce, is
    modelled).
  * f64 arithmetic in the hydrological model and the metrics, which uses
    sqrt / tanh / powf, is embedded as real arithmetic; the NaN a length
    mismatch produces in utils.rs is embedded as `Option.none`.
  * The ChaCha8 random generator is embedded as a deterministic stream
    of rationals in [0,1) together with a position counter; drawing
    advances the position exactly where the Rust code draws.
  * Fallible Rust functions returning Result are embedded with Except.
-/

namespace Hydro

/-! ## Error taxonomy (`metrics.rs::MetricsError`, `model.rs::Error`) -/

/-- Error type of metrics.rs: the single LengthMismatch(usize, usize) variant. -/
inductive MetricsError where
  | lengthMismatch (a b : ℕ)
deriving DecidableEq

/-- Error type of model.rs (`Error`): the variants exercised by the claims. -/
inductive ModelError where
  | lengthMismatch (a b c d : ℕ)
  | paramsMismatch (expected got : ℕ)
  | wrongModel (name valid : String)
  | metrics (e : MetricsError)
deriving DecidableEq

/-! ## Metrics (`metrics.rs`)

The three metric functions take two series and fail with LengthMismatch
when the lengths differ; otherwise they compute over the zipped series
exactly as the Rust folds do. -/

namespace metrics

/-- Embedding of `metrics.rs::check_lengths`. -/
def check_lengths (observations simulations : List ℝ) :
    Except MetricsError Unit :=
  if observations.length ≠ simulations.length then
    .error (.lengthMismatch observations.length simulations.length)
  else
    .ok ()

/-- Embedding of `metrics.rs::calculate_rmse`:
sqrt of the mean of squared differences. -/
noncomputable def calculate_rmse (observations simulations : List ℝ) :
    Except MetricsError ℝ := do
  let _ ← check_lengths observations simulations
  let sum : ℝ :=
    ((observations.zip simulations).map (fun p => (p.1 - p.2) ^ 2)).sum
  pure (Real.sqrt (sum / observations.length))

/-- Embedding of `metrics.rs::calculate_nse`: one fold over the zipped
series accumulating the error sum and the variance sum. -/
noncomputable def calculate_nse (observations simulations : List ℝ) :
    Except MetricsError ℝ := do
  let _ ← check_lengths observations simulations
  let mean : ℝ := observations.sum / observations.length
  let nd : ℝ × ℝ :=
    (observations.zip simulations).foldl
      (fun acc p => (acc.1 + (p.1 - p.2) ^ 2, acc.2 + (p.1 - mean) ^ 2))
      (0, 0)
  pure (1 - nd.1 / nd.2)

/-- Embedding of `metrics.rs::calculate_kge`: single-pass means and
mean-of-squares, std from E[X^2] - E[X]^2, then
1 - sqrt((r-1)^2 + (alpha-1)^2 + (beta-1)^2). -/
noncomputable def calculate_kge (observations simulations : List ℝ) :
    Except MetricsError ℝ := do
  let _ ← check_lengths observations simulations
  let n : ℝ := observations.length
  let observations_mean : ℝ := observations.sum / n
  let observations_mean_2 : ℝ := (observations.map (fun x => x ^ 2)).sum / n
  let simulations_mean : ℝ := simulations.sum / n
  let simulations_mean_2 : ℝ := (simulations.map (fun x => x ^ 2)).sum / n
  let observations_simulations_mean : ℝ :=
    ((observations.zip simulations).map (fun p => p.1 * p.2)).sum / n
  let observations_std : ℝ :=
    Real.sqrt (observations_mean_2 - observations_mean ^ 2)
  let simulations_std : ℝ :=
    Real.sqrt (simulations_mean_2 - simulations_mean ^ 2)
  let covariance : ℝ :=
    observations_simulations_mean - observations_mean * simulations_mean
  let r : ℝ := covariance / (observations_std * simulations_std)
  let alpha : ℝ := simulations_std / observations_std
  let beta : ℝ := simulations_mean / observations_mean
  pure (1 - Real.sqrt ((r - 1) ^ 2 + (alpha - 1) ^ 2 + (beta - 1) ^ 2))

end metrics

/-! ## Metrics (`utils.rs`)

The utils.rs copies of the metric functions return a plain f64 and yield
NaN (embedded as `none`) on a length mismatch instead of an error. -/

namespace utils

/-- Embedding of `utils.rs::calculate_rmse`: NaN (`none`) on length
mismatch, otherwise the same formula as metrics.rs. -/
noncomputable def calculate_rmse (observations predictions : List ℝ) :
    Option ℝ :=
  if observations.length ≠ predictions.length then
    none
  else
    some (Real.sqrt
      (((observations.zip predictions).map (fun p => (p.1 - p.2) ^ 2)).sum /
        observations.length))

/-- Embedding of `utils.rs::calculate_nse`: NaN (`none`) on length
mismatch, otherwise the same fold as metrics.rs. -/
noncomputable def calculate_nse (observations predictions : List ℝ) :
    Option ℝ :=
  if observations.length ≠ predictions.length then
    none
  else
    let mean : ℝ := observations.sum / observations.length
    let nd : ℝ × ℝ :=
      (observations.zip predictions).foldl
        (fun acc p => (acc.1 + (p.1 - p.2) ^ 2, acc.2 + (p.1 - mean) ^ 2))
        (0, 0)
    some (1 - nd.1 / nd.2)

/-- Embedding of `utils.rs::calculate_kge`: NaN (`none`) on length
mismatch, otherwise the same single-pass computation as metrics.rs. -/
noncomputable def calculate_kge (observations predictions : List ℝ) :
    Option ℝ :=
  if observations.length ≠ predictions.length then
    none
  else
    let n : ℝ := observations.length
    let observations_mean : ℝ := observations.sum / n
    let observations_mean_2 : ℝ := (observations.map (fun x => x ^ 2)).sum / n
    let predictions_mean : ℝ := predictions.sum / n
    let predictions_mean_2 : ℝ := (predictions.map (fun x => x ^ 2)).sum / n
    let observations_predictions_mean : ℝ :=
      ((observations.zip predictions).map (fun p => p.1 * p.2)).sum / n
    let observations_std : ℝ :=
      Real.sqrt (observations_mean_2 - observations_mean ^ 2)
    let predictions_std : ℝ :=
      Real.sqrt (predictions_mean_2 - predictions_mean ^ 2)
    let covariance : ℝ :=
      observations_predictions_mean - observations_mean * predictions_mean
    let r : ℝ := covariance / (observations_std * predictions_std)
    let alpha : ℝ := predictions_std / observations_std
    let beta : ℝ := predictions_mean / observations_mean
    some (1 - Real.sqrt ((r - 1) ^ 2 + (alpha - 1) ^ 2 + (beta - 1) ^ 2))

end utils

/-! ## Model and objective name lookup
(`climate/mod.rs::get_model`, `snow/mod.rs::get_model`,
`calibration/utils.rs::Objective::from_str`) -/

/-- Equality of Except values is decidable componentwise (used to
evaluate the embedded functions on concrete inputs). -/
instance instDecEqExcept {ε α : Type _} [DecidableEq ε] [DecidableEq α] :
    DecidableEq (Except ε α) := fun x y =>
  match x, y with
  | .error a, .error b =>
      if h : a = b then .isTrue (by rw [h]) else .isFalse (by simp [h])
  | .ok a, .ok b =>
      if h : a = b then .isTrue (by rw [h]) else .isFalse (by simp [h])
  | .error _, .ok _ => .isFalse (by simp)
  | .ok _, .error _ => .isFalse (by simp)

/-- Rust `str::to_lowercase`, restricted to its ASCII behaviour (the
names the registries match are ASCII). -/
def toLowerStr (s : String) : String := ⟨s.data.map Char.toLower⟩

/-- The single runoff model the climate registry can resolve. -/
inductive ClimateModel where
  | gr4j
deriving DecidableEq

/-- The single snow model the snow registry can resolve. -/
inductive SnowModel where
  | cemaneige
deriving DecidableEq

/-- Embedding of `climate/mod.rs::get_model`: the name is lowercased
(`name.to_lowercase()`) before the match, so the lookup is
case-insensitive.  `toLowerStr` agrees with the Rust `to_lowercase` on
ASCII names, the only ones matched here.  The error string stands for
the formatted unknown-model message. -/
def climateGetModel (name : String) : Except String ClimateModel :=
  if toLowerStr name = "gr4j" then
    .ok .gr4j
  else
    .error ("Unknown model " ++ name ++ ". Valid options: gr4j")

/-- Embedding of `snow/mod.rs::get_model`: the name is matched exactly,
with no lowercasing, so the lookup is case-sensitive. -/
def snowGetModel (model : String) : Except ModelError SnowModel :=
  if model = "cemaneige" then
    .ok .cemaneige
  else
    .error (.wrongModel model "cemaneige")

/-- The objective selector of `calibration/utils.rs::Objective`. -/
inductive Objective where
  | rmse
  | nse
  | kge
deriving DecidableEq

/-- Embedding of `calibration/utils.rs::Objective::from_str`: the name is
lowercased before the match, so the lookup is case-insensitive. -/
def Objective.fromStr (s : String) : Except String Objective :=
  if toLowerStr s = "rmse" then .ok .rmse
  else if toLowerStr s = "nse" then .ok .nse
  else if toLowerStr s = "kge" then .ok .kge
  else .error ("Unknown objective function " ++ s ++
    ". Valid options: nse, kge, rmse")

/-! ## GR4J (`climate/gr4j.rs`)

Real-number embedding of the four-parameter rainfall-runoff model. -/

namespace gr4j

/-- The cumulative unit-hydrograph curve s1 of `create_unit_hydrographs`. -/
noncomputable def s1Curve (x4 i : ℝ) : ℝ :=
  if i = 0 then 0
  else if i ≥ x4 then 1
  else (i / x4) ^ (1.25 : ℝ)

/-- The cumulative unit-hydrograph curve s2 of `create_unit_hydrographs`. -/
noncomputable def s2Curve (x4 i : ℝ) : ℝ :=
  if i = 0 then 0
  else if i ≥ 2 * x4 then 1
  else if i < x4 then 0.5 * (i / x4) ^ (1.25 : ℝ)
  else 1 - 0.5 * (2 - i / x4) ^ (1.25 : ℝ)

/-- Embedding of `create_unit_hydrographs`: first differences of the two
cumulative curves, over 1..=ceil(x4) and 1..=ceil(2*x4). -/
noncomputable def create_unit_hydrographs (x4 : ℝ) : List ℝ × List ℝ :=
  ((List.range (Int.toNat ⌈x4⌉)).map
      (fun k => s1Curve x4 (k + 1) - s1Curve x4 k),
   (List.range (Int.toNat ⌈2 * x4⌉)).map
      (fun k => s2Curve x4 (k + 1) - s2Curve x4 k))

/-- Embedding of `update_production`: returns the new production store and
the routing precipitation. -/
noncomputable def update_production (store precipitation pet x1 : ℝ) :
    ℝ × ℝ :=
  let spn :=
    if precipitation > pet then
      let net_precipitation := precipitation - pet
      let tmp_term_1 := store / x1
      let tmp_term_2 := Real.tanh (net_precipitation / x1)
      let store_precipitation :=
        x1 * (1 - tmp_term_1 * tmp_term_1) * tmp_term_2 /
          (1 + tmp_term_1 * tmp_term_2)
      (store + store_precipitation, store_precipitation, net_precipitation)
    else if precipitation < pet then
      let net_pet := pet - precipitation
      let tmp_term_1 := store / x1
      let tmp_term_2 := Real.tanh (net_pet / x1)
      let evapotranspiration :=
        store * (2 - tmp_term_1) * tmp_term_2 /
          (1 + (1 - tmp_term_1) * tmp_term_2)
      (store - evapotranspiration, 0, 0)
    else
      (store, 0, 0)
  let store := spn.1
  let store_precipitation := spn.2.1
  let net_precipitation := spn.2.2
  let sp :=
    if x1 / store > 1e-3 then
      let percolation :=
        store * (1 - (1 + (4 / 21 * store / x1) ^ (4 : ℕ)) ^ (-0.25 : ℝ))
      (store - percolation, percolation)
    else
      (store, 0)
  (sp.1, net_precipitation - store_precipitation + sp.2)

/-- Embedding of `update_hydrographs`: shift each buffer toward index 0
with a fresh 0 at the tail, then add the scaled unit hydrograph. -/
def update_hydrographs (routing_precipitation : ℝ)
    (hydrographs unit_hydrographs : List ℝ × List ℝ) : List ℝ × List ℝ :=
  (((hydrographs.1.drop 1 ++ [0]).zip unit_hydrographs.1).map
      (fun p : ℝ × ℝ => p.1 + (0.9 : ℝ) * routing_precipitation * p.2),
   ((hydrographs.2.drop 1 ++ [0]).zip unit_hydrographs.2).map
      (fun p : ℝ × ℝ => p.1 + (0.1 : ℝ) * routing_precipitation * p.2))

/-- Embedding of `update_routing`: returns the new routing store, the new
hydrograph buffers and the total flow.  Indexing `[0]` of the hydrograph
buffers is embedded with `getD 0`. -/
noncomputable def update_routing (store : ℝ)
    (hydrographs unit_hydrographs : List ℝ × List ℝ)
    (routing_precipitation x2 x3 : ℝ) :
    ℝ × (List ℝ × List ℝ) × ℝ :=
  let hydrographs :=
    update_hydrographs routing_precipitation hydrographs unit_hydrographs
  let q9 := hydrographs.1.getD 0 0
  let q1 := hydrographs.2.getD 0 0
  let groundwater_exchange := x2 * (store / x3) ^ (3.5 : ℝ)
  let store := max (1e-3 * x3) (store + q9 + groundwater_exchange)
  let routed_flow := store * (1 - (1 + (store / x3) ^ (4 : ℕ)) ^ (-0.25 : ℝ))
  let store := store - routed_flow
  let direct_flow := max 0 (q1 + groundwater_exchange)
  (store, hydrographs, routed_flow + direct_flow)

/-- The per-call simulation state of `simulate`: production store, routing
store and the two unit-hydrograph buffers. -/
structure State where
  productionStore : ℝ
  routingStore : ℝ
  hydrographs : List ℝ × List ℝ

/-- One loop iteration of `simulate`: production phase then routing
phase, returning the new state and the discharge of the timestep. -/
noncomputable def stepFn (x1 x2 x3 : ℝ) (unit_hydrographs : List ℝ × List ℝ)
    (st : State) (precipitation pet : ℝ) : State × ℝ :=
  let pr := update_production st.productionStore precipitation pet x1
  let ro := update_routing st.routingStore st.hydrographs unit_hydrographs
    pr.2 x2 x3
  (⟨pr.1, ro.1, ro.2.1⟩, ro.2.2)

/-- The state trace of `simulate`: the state and discharge after each
timestep, for the given forcing (precipitation, pet) pairs. -/
noncomputable def run (x1 x2 x3 : ℝ) (unit_hydrographs : List ℝ × List ℝ) :
    State → List (ℝ × ℝ) → List (State × ℝ)
  | _, [] => []
  | st, f :: rest =>
      let sq := stepFn x1 x2 x3 unit_hydrographs st f.1 f.2
      sq :: run x1 x2 x3 unit_hydrographs sq.1 rest

/-- The initial state of `simulate`: production store x1/2, routing store
x3/2, zeroed hydrograph buffers of the unit-hydrograph lengths. -/
noncomputable def initState (x1 x3 x4 : ℝ) : State :=
  let uh := create_unit_hydrographs x4
  ⟨x1 / 2, x3 / 2,
    (List.replicate uh.1.length 0, List.replicate uh.2.length 0)⟩

/-- Embedding of `gr4j::simulate`: destructure exactly four parameters or
fail with ParamsMismatch, then fold the per-timestep update over the
forcing series and collect the discharge. -/
noncomputable def simulate (params : List ℝ) (precipitation pet : List ℝ) :
    Except ModelError (List ℝ) :=
  match params with
  | [x1, x2, x3, x4] =>
      let uh := create_unit_hydrographs x4
      .ok ((run x1 x2 x3 uh (initState x1 x3 x4)
        (precipitation.zip pet)).map (fun sq => sq.2))
  | _ => .error (.paramsMismatch 4 params.length)

end gr4j

/-! ## The objective value type

Objective values are f64 and can be NaN or infinite (the sentinel rows
are (+inf, -inf, -inf)).  `F` extends the rationals with those values;
only the positive NaN, the one float computations produce, is
modelled. -/

inductive F where
  | ninf
  | fin (q : ℚ)
  | inf
  | nan
deriving DecidableEq

namespace F

/-- IEEE strict less-than on f64: every comparison with NaN is false. -/
def lt : F → F → Bool
  | nan, _ => false
  | _, nan => false
  | ninf, ninf => false
  | ninf, _ => true
  | _, ninf => false
  | fin a, fin b => decide (a < b)
  | fin _, inf => true
  | inf, _ => false

/-- Rust `f64::total_cmp` as a Boolean less-or-equal:
-inf < finite < +inf < NaN. -/
def totalLe : F → F → Bool
  | ninf, _ => true
  | fin _, ninf => false
  | fin a, fin b => decide (a ≤ b)
  | fin _, inf => true
  | fin _, nan => true
  | inf, ninf => false
  | inf, fin _ => false
  | inf, inf => true
  | inf, nan => true
  | nan, nan => true
  | nan, _ => false

/-- IEEE negation. -/
def neg : F → F
  | nan => nan
  | inf => ninf
  | ninf => inf
  | fin a => fin (-a)

/-- IEEE addition (signed zeros are not distinguished). -/
def add : F → F → F
  | nan, _ => nan
  | _, nan => nan
  | inf, ninf => nan
  | ninf, inf => nan
  | inf, _ => inf
  | _, inf => inf
  | ninf, _ => ninf
  | _, ninf => ninf
  | fin a, fin b => fin (a + b)

/-- IEEE subtraction. -/
def sub (x y : F) : F := add x (neg y)

/-- IEEE multiplication. -/
def mul : F → F → F
  | nan, _ => nan
  | _, nan => nan
  | inf, inf => inf
  | inf, ninf => ninf
  | ninf, inf => ninf
  | ninf, ninf => inf
  | inf, fin b => if b = 0 then nan else if b < 0 then ninf else inf
  | fin a, inf => if a = 0 then nan else if a < 0 then ninf else inf
  | ninf, fin b => if b = 0 then nan else if b < 0 then inf else ninf
  | fin a, ninf => if a = 0 then nan else if a < 0 then inf else ninf
  | fin a, fin b => fin (a * b)

/-- IEEE division (signed zeros are not distinguished; a zero numerator
over a zero denominator is NaN, a nonzero one over zero is a signed
infinity). -/
def div : F → F → F
  | nan, _ => nan
  | _, nan => nan
  | inf, inf => nan
  | inf, ninf => nan
  | ninf, inf => nan
  | ninf, ninf => nan
  | inf, fin b => if b < 0 then ninf else inf
  | ninf, fin b => if b < 0 then inf else ninf
  | fin _, inf => fin 0
  | fin _, ninf => fin 0
  | fin a, fin b =>
      if b = 0 then (if a = 0 then nan else if a < 0 then ninf else inf)
      else fin (a / b)

/-- IEEE absolute value. -/
def abs : F → F
  | nan => nan
  | inf => inf
  | ninf => inf
  | fin a => fin |a|

/-- Rust `Iterator::sum` for f64: fold of addition starting at 0.0. -/
def sum (l : List F) : F := l.foldl add (fin 0)

end F

/-! ## The random generator

The seeded ChaCha8 generator is embedded as a deterministic stream of
rationals (the values of the successive `Uniform::new(0., 1.)` draws)
together with a position counter; every draw advances the position by
one, exactly where the Rust code draws. -/

structure Rng where
  stream : ℕ → ℚ
  pos : ℕ

/-- One uniform draw. -/
def Rng.next (r : Rng) : ℚ × Rng := (r.stream r.pos, ⟨r.stream, r.pos + 1⟩)

/-- A block of n consecutive uniform draws (`Array1::random_using`). -/
def Rng.nextList (r : Rng) (n : ℕ) : List ℚ × Rng :=
  ((List.range n).map (fun i => r.stream (r.pos + i)), ⟨r.stream, r.pos + n⟩)

/-! ## SCE-UA optimizer (`calibration/sce.rs`) -/

namespace sce

/-- Column index of the selected objective in the (rmse, nse, kge)
objectives row, from the match in `init` and `step`. -/
def objectiveIdx : Objective → ℕ
  | .rmse => 0
  | .nse => 1
  | .kge => 2

/-- Whether the selected objective is minimized, from the match in
`step` and `evaluate_initial_population`. -/
def isMinimization : Objective → Bool
  | .rmse => true
  | .nse => false
  | .kge => false

/-- The sort key of `sort_population`: column `objective_idx` of an
objectives row. -/
def objVal (objective_idx : ℕ) (row : List F) : F := row.getD objective_idx F.nan

/-- Componentwise vector sum. -/
def vadd (a b : List ℚ) : List ℚ := (a.zip b).map (fun p => p.1 + p.2)

/-- Componentwise vector difference. -/
def vsub (a b : List ℚ) : List ℚ := (a.zip b).map (fun p => p.1 - p.2)

/-- Scalar multiple of a vector. -/
def smul (c : ℚ) (a : List ℚ) : List ℚ := a.map (fun x => c * x)

/-- Map a row of unit draws into the bounds box:
`random_values * range + lower_bounds`. -/
def scaleRow (lower_bounds upper_bounds : List ℚ) (r : List ℚ) : List ℚ :=
  vadd ((r.zip (vsub upper_bounds lower_bounds)).map (fun p => p.1 * p.2))
    lower_bounds

/-- Embedding of `generate_initial_population`: a population_size x
n_params block of uniform draws (row-major), scaled into the bounds box,
with row 0 overwritten by the midpoint of the bounds.  The draws for
row 0 are still consumed, as in the source. -/
def generate_initial_population (population_size : ℕ)
    (lower_bounds upper_bounds : List ℚ) (rng : Rng) :
    List (List ℚ) × Rng :=
  let n_params := lower_bounds.length
  let random_values := (List.range population_size).map (fun i =>
    (List.range n_params).map (fun j => rng.stream (rng.pos + i * n_params + j)))
  let rng : Rng := ⟨rng.stream, rng.pos + population_size * n_params⟩
  let population := random_values.map (scaleRow lower_bounds upper_bounds)
  let initial_point :=
    (lower_bounds.zip upper_bounds).map (fun p => (p.1 + p.2) / 2)
  (population.set 0 initial_point, rng)

/-- A parameter row of the right width lying componentwise inside the
bounds box. -/
def rowOK (lower_bounds upper_bounds : List ℚ) (r : List ℚ) : Prop :=
  r.length = lower_bounds.length ∧
  ∀ i < r.length,
    lower_bounds.getD i 0 ≤ r.getD i 0 ∧ r.getD i 0 ≤ upper_bounds.getD i 0

/-- The uniform draws of the stream lie in [0, 1). -/
def StreamOK (stream : ℕ → ℚ) : Prop := ∀ k, 0 ≤ stream k ∧ stream k < 1

/-- The comparison direction of the sorts: total_cmp ascending when
minimizing, descending when maximizing. -/
def dirLe (is_minimization : Bool) (x y : F) : Bool :=
  if is_minimization then F.totalLe x y else F.totalLe y x

/-- Embedding of `sort_population`: a stable sort of the paired
(population, objectives) rows by total_cmp on the selected objective
column, ascending when minimizing, descending when maximizing.  The
source stably sorts the index list with the same comparator and selects
both matrices with it; a stable sort under a total comparator is
uniquely determined, so the structural insertion sort used here computes
the same rows. -/
def sort_population (population : List (List ℚ)) (objectives : List (List F))
    (objective_idx : ℕ) (is_minimization : Bool) :
    List (List ℚ) × List (List F) :=
  let sorted := List.insertionSort
    (fun x y => dirLe is_minimization
      (objVal objective_idx x.2) (objVal objective_idx y.2) = true)
    (population.zip objectives)
  (sorted.map Prod.fst, sorted.map Prod.snd)

/-- Maximum of a column (fold of `max`; the source starts the fold at
-inf, which agrees on the nonempty columns the optimizer produces). -/
def colMax : List ℚ → ℚ
  | [] => 0
  | a :: t => t.foldl max a

/-- Minimum of a column. -/
def colMin : List ℚ → ℚ
  | [] => 0
  | a :: t => t.foldl min a

/-- The floored normalised ranges of
`compute_normalized_geometric_range`: max(1e-10, (max_i - min_i) /
(ub_i - lb_i)) per parameter dimension. -/
def normalisedRanges (population : List (List ℚ))
    (lower_bounds upper_bounds : List ℚ) : List ℚ :=
  (List.range lower_bounds.length).map (fun i =>
    let col := population.map (fun row => row.getD i 0)
    max (1e-10 : ℚ)
      ((colMax col - colMin col) /
        (upper_bounds.getD i 0 - lower_bounds.getD i 0)))

/-- The comparison gnrng < threshold of `step`, where gnrng =
exp(mean(ln(x_i))) over the floored normalised ranges x_i is their
geometric mean.  Every x_i is at least 1e-10, hence positive, so the
comparison is equivalent to the rational comparison
x_1 * ... * x_n < threshold^n together with 0 < threshold (and to
1 < threshold when n = 0: the mean of an empty array is unwrapped to 0
and exp 0 = 1).  The equivalence with the real exp / mean / ln form of
the source is proved in `gnrngBelow_iff`. -/
def gnrngBelow (xs : List ℚ) (threshold : ℚ) : Bool :=
  if xs.length = 0 then decide (1 < threshold)
  else decide (0 < threshold) && decide (xs.prod < threshold ^ xs.length)

/-- The convergence change of `step`: once at least k_stop criteria
exist, |c[len-1] - c[len-k_stop]| * 100 divided by the mean of the
absolute values of the last k_stop criteria, and +inf when that mean is
not positive or the history is still shorter than k_stop.  (The index
len-k_stop is the first element of the window of the last k_stop
values.) -/
def criteriaChange (criteria : List F) (k_stop : ℕ) : F :=
  if criteria.length ≥ k_stop then
    let recent := criteria.drop (criteria.length - k_stop)
    let mean_recent := F.div (F.sum (recent.map F.abs)) (F.fin k_stop)
    if F.lt (F.fin 0) mean_recent then
      F.div
        (F.mul
          (F.abs (F.sub (criteria.getD (criteria.length - 1) F.nan)
            (criteria.getD (criteria.length - k_stop) F.nan)))
          (F.fin 100))
        mean_recent
    else
      F.inf
  else
    F.inf

/-- The triangular-bias index of `select_simplex_indices`:
floor(n + 0.5 - sqrt((n + 0.5)^2 - n(n+1) u)) cast to usize (the cast
saturates negative values and NaN to 0).  Computed exactly over the
rationals as the largest m in 0..n with radicand <= (n + 0.5 - m)^2,
0 when there is none or the radicand is negative. -/
def lposQ (n_per_complex : ℕ) (u : ℚ) : ℕ :=
  let a : ℚ := n_per_complex + 1 / 2
  let b : ℚ := a ^ 2 - (n_per_complex * (n_per_complex + 1) : ℕ) * u
  if b < 0 then 0
  else
    ((List.range (n_per_complex + 1)).filter
      (fun m : ℕ => decide (b ≤ (a - (m : ℚ)) ^ 2))).foldr max 0

/-- The inner retry loop of `select_simplex_indices`: up to `fuel`
draws (1000 in the source); the first index not already selected is
returned, or the last drawn index when the attempts are exhausted. -/
def drawIndex (n_per_complex : ℕ) (indices : List ℕ) :
    ℕ → Rng → ℕ × Rng
  | 0, rng => (0, rng)
  | fuel + 1, rng =>
      let ur := rng.next
      let lpos := lposQ n_per_complex ur.1
      if lpos ∈ indices ∧ fuel ≠ 0 then
        drawIndex n_per_complex indices fuel ur.2
      else
        (lpos, ur.2)

/-- Embedding of `select_simplex_indices`: always include index 0, fill
the remaining n_simplex - 1 slots with the retry loop, sort
ascending. -/
def select_simplex_indices (n_per_complex n_simplex : ℕ) (rng : Rng) :
    List ℕ × Rng :=
  let res := (List.range (n_simplex - 1)).foldl
    (fun (acc : List ℕ × Rng) _ =>
      let lr := drawIndex n_per_complex acc.1 1000 acc.2
      (acc.1 ++ [lr.1], lr.2))
    ([0], rng)
  (List.insertionSort (fun a b : ℕ => a ≤ b) res.1, res.2)

/-- Centroid of the rows (`mean_axis(Axis(0))`). -/
def centroid (rows : List (List ℚ)) : List ℚ :=
  match rows with
  | [] => []
  | r :: rest => smul (1 / ((rest.length + 1 : ℕ) : ℚ)) (rest.foldl vadd r)

/-- The comparison "new objective is worse than old" of
`evolve_complex_step`: strictly greater when minimizing, strictly
smaller when maximizing (IEEE comparisons, so false on NaN). -/
def is_worse (is_minimization : Bool) (new_val old_val : F) : Bool :=
  if is_minimization then F.lt old_val new_val else F.lt new_val old_val

/-- A complex: paired population and objective rows. -/
structure Complex where
  cx : List (List ℚ)
  cf : List (List F)
deriving DecidableEq

/-- Embedding of `partition_into_complexes`: complex igs takes the rows
with indices j * n_complexes + igs of the sorted population. -/
def partition_into_complexes (population : List (List ℚ))
    (objectives : List (List F)) (n_complexes : ℕ) : List Complex :=
  let n_per_complex := population.length / n_complexes
  (List.range n_complexes).map (fun igs =>
    let k2 := (List.range n_per_complex).map (fun j => j * n_complexes + igs)
    ⟨k2.map (fun i => population.getD i []),
     k2.map (fun i => objectives.getD i [])⟩)

/-- Embedding of `merge_complexes`: concatenate all complexes and sort
by the selected objective. -/
def merge_complexes (complexes : List Complex)
    (objective_idx : ℕ) (is_minimization : Bool) :
    List (List ℚ) × List (List F) :=
  sort_population (complexes.map Complex.cx).flatten
    (complexes.map Complex.cf).flatten objective_idx is_minimization

/-- The result of one `evolve_complex_step`: the accepted point, its
objectives row, and the number of model calls made. -/
structure StepEval where
  snew : List ℚ
  fnew : List F
  calls : ℕ
deriving DecidableEq

/-- The configuration of `Sce::new`: the numeric settings together with
the bounds the resolved model supplies.  The derived sizes follow the
source: n_per_complex = 2 P + 1, n_simplex = P + 1,
n_evolution_steps = 2 P + 1, population_size = n_complexes *
n_per_complex. -/
structure SceConfig where
  objective : Objective
  n_complexes : ℕ
  k_stop : ℕ
  p_convergence_threshold : ℚ
  geometric_range_threshold : ℚ
  max_evaluations : ℕ
  lower_bounds : List ℚ
  upper_bounds : List ℚ

/-- Number of parameters P. -/
def SceConfig.n_params (cfg : SceConfig) : ℕ := cfg.lower_bounds.length

/-- Complex size 2 P + 1. -/
def SceConfig.n_per_complex (cfg : SceConfig) : ℕ := 2 * cfg.n_params + 1

/-- Simplex size P + 1. -/
def SceConfig.n_simplex (cfg : SceConfig) : ℕ := cfg.n_params + 1

/-- Evolution steps per complex per step, 2 P + 1. -/
def SceConfig.n_evolution_steps (cfg : SceConfig) : ℕ := 2 * cfg.n_params + 1

/-- Total population size. -/
def SceConfig.population_size (cfg : SceConfig) : ℕ :=
  cfg.n_complexes * cfg.n_per_complex

/-- The configuration facts the optimizer relies on: at least one
parameter and one complex, bounds tables of equal width with lower at
most upper per row (the resolved models always supply such bounds). -/
structure CfgOK (cfg : SceConfig) : Prop where
  params_pos : 1 ≤ cfg.n_params
  complexes_pos : 1 ≤ cfg.n_complexes
  bounds_len : cfg.upper_bounds.length = cfg.lower_bounds.length
  bounds_le : ∀ i < cfg.n_params,
    cfg.lower_bounds.getD i 0 ≤ cfg.upper_bounds.getD i 0

/-- The mutable state of the Sce optimizer: the fields of `SceParams`
and `CalibrationParams` that `init` and `step` read or write. -/
structure SceState where
  population : List (List ℚ)
  objectives : List (List F)
  criteria : List F
  n_calls : ℕ
  params : List ℚ
  rng : Rng
  done : Bool

section Engine

/- The optimizer is generic over the boxed simulate closure it stores
and over `evaluate_simulation` (rmse, nse, kge of observations against
a simulation), whose numeric internals live in the real-number
embedding; both are pure functions, matching the requirement that
evaluation never consumes the random generator. -/
variable {Data Meta Obs Sim ε : Type}
variable (simulate : List ℚ → Data → Meta → Except ε Sim)
variable (evalSim : Obs → Sim → Except ε (List F))

/-- One candidate evaluation: simulate, then score with all three
metrics (`evaluate_simulation` applied to a row). -/
def evalRow (data : Data) (metadata : Meta) (observations : Obs)
    (params : List ℚ) : Except ε (List F) := do
  let simulation ← simulate params data metadata
  evalSim observations simulation

/-- Embedding of `evaluate_initial_population`: score every row (the
source evaluates all rows in parallel and then propagates the first
error in row order, which yields the same result and state), then sort
by the selected objective. -/
def evaluate_initial_population (data : Data) (metadata : Meta)
    (observations : Obs) (population : List (List ℚ)) (objective : Objective) :
    Except ε (List (List ℚ) × List (List F)) := do
  let objectives ← population.mapM (evalRow simulate evalSim data metadata observations)
  pure (sort_population population objectives (objectiveIdx objective)
    (isMinimization objective))

/-- Embedding of `evolve_complex_step`: reflection with out-of-bounds
replacement by a uniform draw, then contraction, then a uniform draw,
each evaluated; the random generator is threaded through and returned
also when the evaluation fails, as the source mutates it in place. -/
def evolve_complex_step (simplex : List (List ℚ))
    (simplex_objectives : List (List F))
    (lower_bounds upper_bounds : List ℚ)
    (data : Data) (metadata : Meta) (observations : Obs)
    (objective_idx : ℕ) (is_minimization : Bool) (rng : Rng) :
    Except ε StepEval × Rng :=
  let alpha : ℚ := 1
  let beta : ℚ := 1 / 2
  let sw := simplex.getLastD []
  let fw := objVal objective_idx (simplex_objectives.getLastD [])
  let ce := centroid simplex.dropLast
  let snew0 := vadd ce (smul alpha (vsub ce sw))
  let out_of_bounds :=
    ((snew0.zip lower_bounds).any (fun p => decide (p.1 < p.2))) ||
    ((snew0.zip upper_bounds).any (fun p => decide (p.1 > p.2)))
  let sr : List ℚ × Rng :=
    if out_of_bounds then
      let rr := rng.nextList snew0.length
      (scaleRow lower_bounds upper_bounds rr.1, rr.2)
    else
      (snew0, rng)
  let snew := sr.1
  let rng := sr.2
  match evalRow simulate evalSim data metadata observations snew with
  | .error e => (.error e, rng)
  | .ok fnew =>
    if is_worse is_minimization (objVal objective_idx fnew) fw then
      let snew2 := vadd sw (smul beta (vsub ce sw))
      match evalRow simulate evalSim data metadata observations snew2 with
      | .error e => (.error e, rng)
      | .ok fnew2 =>
        if is_worse is_minimization (objVal objective_idx fnew2) fw then
          let rr := rng.nextList snew2.length
          let snew3 := scaleRow lower_bounds upper_bounds rr.1
          match evalRow simulate evalSim data metadata observations snew3 with
          | .error e => (.error e, rr.2)
          | .ok fnew3 => (.ok ⟨snew3, fnew3, 3⟩, rr.2)
        else
          (.ok ⟨snew2, fnew2, 2⟩, rng)
    else
      (.ok ⟨snew, fnew, 1⟩, rng)

/-- One iteration of the inner loop of `evolve_complexes`: select a
simplex, evolve it, replace the worst simplex slot, write the simplex
back into the complex at the selected indices, and re-sort the
complex. -/
def evolveIteration (lower_bounds upper_bounds : List ℚ)
    (data : Data) (metadata : Meta) (observations : Obs)
    (objective_idx : ℕ) (is_minimization : Bool)
    (n_per_complex n_simplex : ℕ) (c : Complex) (rng : Rng) :
    Except ε (Complex × ℕ) × Rng :=
  let ir := select_simplex_indices n_per_complex n_simplex rng
  let simplex_indices := ir.1
  let s := simplex_indices.map (fun i => c.cx.getD i [])
  let sf := simplex_indices.map (fun i => c.cf.getD i [])
  match evolve_complex_step simulate evalSim s sf lower_bounds upper_bounds
    data metadata observations objective_idx is_minimization ir.2 with
  | (.error e, rng) => (.error e, rng)
  | (.ok ev, rng) =>
    let s2 := s.dropLast ++ [ev.snew]
    let sf2 := sf.dropLast ++ [ev.fnew]
    let cx := (simplex_indices.zip s2).foldl
      (fun acc p => acc.set p.1 p.2) c.cx
    let cf := (simplex_indices.zip sf2).foldl
      (fun acc p => acc.set p.1 p.2) c.cf
    let pc := sort_population cx cf objective_idx is_minimization
    (.ok (⟨pc.1, pc.2⟩, ev.calls), rng)

/-- The inner loop of `evolve_complexes`: n_evolution_steps iterations
on one complex, accumulating the call count. -/
def evolveComplexLoop (lower_bounds upper_bounds : List ℚ)
    (data : Data) (metadata : Meta) (observations : Obs)
    (objective_idx : ℕ) (is_minimization : Bool)
    (n_per_complex n_simplex : ℕ) :
    ℕ → Complex → ℕ → Rng → Except ε (Complex × ℕ) × Rng
  | 0, c, n_calls, rng => (.ok (c, n_calls), rng)
  | steps + 1, c, n_calls, rng =>
    match evolveIteration simulate evalSim lower_bounds upper_bounds
      data metadata observations objective_idx is_minimization
      n_per_complex n_simplex c rng with
    | (.error e, rng) => (.error e, rng)
    | (.ok r, rng) =>
      evolveComplexLoop lower_bounds upper_bounds data metadata observations
        objective_idx is_minimization n_per_complex n_simplex
        steps r.1 (n_calls + r.2) rng

/-- Embedding of `evolve_complexes`: evolve each complex in sequence
(the source notes the parallel version was abandoned), threading the
call count and the random generator. -/
def evolve_complexes (lower_bounds upper_bounds : List ℚ)
    (data : Data) (metadata : Meta) (observations : Obs)
    (objective_idx : ℕ) (is_minimization : Bool)
    (n_per_complex n_simplex n_evolution_steps : ℕ) :
    List Complex → ℕ → Rng → Except ε (List Complex × ℕ) × Rng
  | [], n_calls, rng => (.ok ([], n_calls), rng)
  | c :: rest, n_calls, rng =>
    match evolveComplexLoop simulate evalSim lower_bounds upper_bounds
      data metadata observations objective_idx is_minimization
      n_per_complex n_simplex n_evolution_steps c n_calls rng with
    | (.error e, rng) => (.error e, rng)
    | (.ok r, rng) =>
      match evolve_complexes lower_bounds upper_bounds data metadata
        observations objective_idx is_minimization n_per_complex n_simplex
        n_evolution_steps rest r.2 rng with
      | (.error e, rng) => (.error e, rng)
      | (.ok r2, rng) => (.ok (r.1 :: r2.1, r2.2), rng)

/-- Embedding of `Sce::new`: scatter the initial population inside the
bounds with the freshly seeded generator, install the sentinel
objectives (+inf, -inf, -inf), empty criteria, best params = row 0,
n_calls = 0, done = false. -/
def new (cfg : SceConfig) (rng : Rng) : SceState :=
  let pr := generate_initial_population cfg.population_size
    cfg.lower_bounds cfg.upper_bounds rng
  { population := pr.1
    objectives := List.replicate cfg.population_size [F.inf, F.ninf, F.ninf]
    criteria := []
    n_calls := 0
    params := pr.1.getD 0 []
    rng := pr.2
    done := false }

/-- Embedding of `Sce::init`: regenerate the population (consuming the
generator), evaluate and sort it, then store it together with the seed
criterion; on an evaluation failure only the generator has advanced. -/
def init (cfg : SceConfig) (data : Data) (metadata : Meta)
    (observations : Obs) (st : SceState) : SceState × Except ε Unit :=
  let objective_idx := objectiveIdx cfg.objective
  let pr := generate_initial_population st.population.length
    cfg.lower_bounds cfg.upper_bounds st.rng
  match evaluate_initial_population simulate evalSim data metadata
    observations pr.1 cfg.objective with
  | .error e => ({ st with rng := pr.2 }, .error e)
  | .ok po =>
    ({ st with
        criteria := [objVal objective_idx (po.2.getD 0 [])]
        params := po.1.getD 0 []
        population := po.1
        objectives := po.2
        rng := pr.2 }, .ok ())

/-- Embedding of `Sce::step`.  The done branch recomputes the best
simulation and returns without advancing.  Otherwise the population and
objectives are moved out (`std::mem::take` leaves empty matrices), the
complexes are partitioned, evolved and merged, the convergence criteria
are updated, and the fields are reassigned in source order: criteria,
done, params and n_calls before the final simulation of the best
parameters, the population and objectives only after it, so a failing
evaluation leaves the taken (empty) population and objectives
behind. -/
def step (cfg : SceConfig) (data : Data) (metadata : Meta)
    (observations : Obs) (st : SceState) :
    SceState × Except ε (Bool × List ℚ × Sim × List F) :=
  if st.done then
    match simulate st.params data metadata with
    | .error e => (st, .error e)
    | .ok best_simulation =>
      (st, .ok (true, st.params, best_simulation, st.objectives.getD 0 []))
  else
    let objective_idx := objectiveIdx cfg.objective
    let is_minimization := isMinimization cfg.objective
    let complexes := partition_into_complexes st.population st.objectives
      cfg.n_complexes
    let stTaken := { st with population := [], objectives := [] }
    match evolve_complexes simulate evalSim cfg.lower_bounds cfg.upper_bounds
      data metadata observations objective_idx is_minimization
      cfg.n_per_complex cfg.n_simplex cfg.n_evolution_steps
      complexes st.n_calls st.rng with
    | (.error e, rng) => ({ stTaken with rng := rng }, .error e)
    | (.ok er, rng) =>
      let pc := merge_complexes er.1 objective_idx is_minimization
      let population := pc.1
      let objectives := pc.2
      let best_objective := objVal objective_idx (objectives.getD 0 [])
      let gnrng := gnrngBelow
        (normalisedRanges population cfg.lower_bounds cfg.upper_bounds)
        cfg.geometric_range_threshold
      let criteria := st.criteria ++ [best_objective]
      let criteria_change := criteriaChange criteria cfg.k_stop
      let done := decide (er.2 > cfg.max_evaluations) || gnrng ||
        F.lt criteria_change (F.fin cfg.p_convergence_threshold)
      let params := population.getD 0 []
      let stInter := { stTaken with
        criteria := criteria
        done := done
        params := params
        n_calls := er.2
        rng := rng }
      match simulate params data metadata with
      | .error e => (stInter, .error e)
      | .ok best_simulation =>
        ({ stInter with population := population, objectives := objectives },
         .ok (done, params, best_simulation, objectives.getD 0 []))

/-- Well-formedness of an optimizer state, as established by `init`:
matching table lengths, rows inside the bounds box, rows sorted by the
selected objective direction, and every stored objectives row equal to
the evaluation of its parameter row. -/
structure WF (cfg : SceConfig) (data : Data) (metadata : Meta)
    (observations : Obs) (st : SceState) : Prop where
  len_obj : st.objectives.length = st.population.length
  len_pop : st.population.length = cfg.population_size
  rows : ∀ r ∈ st.population, rowOK cfg.lower_bounds cfg.upper_bounds r
  sorted : (st.population.zip st.objectives).Pairwise
    (fun x y => dirLe (isMinimization cfg.objective)
      (objVal (objectiveIdx cfg.objective) x.2)
      (objVal (objectiveIdx cfg.objective) y.2) = true)
  cons : ∀ p ∈ st.population.zip st.objectives,
    evalRow simulate evalSim data metadata observations p.1 = .ok p.2

/-- n successive `step` calls with fixed inputs, collecting each call's
result. -/
def runSteps (cfg : SceConfig) (data : Data) (metadata : Meta)
    (observations : Obs) :
    ℕ → SceState → SceState × List (Except ε (Bool × List ℚ × Sim × List F))
  | 0, st => (st, [])
  | n + 1, st =>
    let r := step simulate evalSim cfg data metadata observations st
    let rest := runSteps cfg data metadata observations n r.1
    (rest.1, r.2 :: rest.2)

/-- A full run: construct from the seeded generator, `init`, then n
`step` calls with the same inputs. -/
def runSce (cfg : SceConfig) (rng : Rng) (data : Data) (metadata : Meta)
    (observations : Obs) (n : ℕ) :
    (SceState × Except ε Unit) ×
      (SceState × List (Except ε (Bool × List ℚ × Sim × List F))) :=
  let st0 := new cfg rng
  let ir := init simulate evalSim cfg data metadata observations st0
  (ir, runSteps simulate evalSim cfg data metadata observations n ir.1)

end Engine

/-- The real-number gnrng of `compute_normalized_geometric_range`: exp
of the mean of the logs of the floored normalised ranges (the mean of an
empty list is 0, matching `unwrap_or(0.0)`). -/
noncomputable def gnrngReal (xs : List ℚ) : ℝ :=
  Real.exp ((xs.map (fun x : ℚ => Real.log (x : ℝ))).sum / xs.length)

/-- Modelled from the spec (claim C3): the convergence change with the
difference taken k_stop entries back,
|c[last] - c[last - k_stop]| * 100 / mean(|c[last - k_stop + 1 .. last]|),
and +inf while the window (which under this reading needs k_stop + 1
entries) is not yet full.  Stated only for comparison with the source
formula `criteriaChange`, which subtracts c[last - k_stop + 1], the
first entry of the k_stop-long window. -/
def criteriaChangeClaim (criteria : List F) (k_stop : ℕ) : F :=
  if criteria.length ≥ k_stop + 1 then
    let recent := criteria.drop (criteria.length - k_stop)
    let mean_recent := F.div (F.sum (recent.map F.abs)) (F.fin k_stop)
    if F.lt (F.fin 0) mean_recent then
      F.div
        (F.mul
          (F.abs (F.sub (criteria.getD (criteria.length - 1) F.nan)
            (criteria.getD (criteria.length - 1 - k_stop) F.nan)))
          (F.fin 100))
        mean_recent
    else
      F.inf
  else
    F.inf

end sce

/-- The pair comparator of `sort_population`, as a relation on the
paired (population, objectives) rows. -/
def pairRel (objective_idx : ℕ) (is_minimization : Bool)
    (x y : List ℚ × List F) : Prop :=
  sce.dirLe is_minimization (sce.objVal objective_idx x.2)
    (sce.objVal objective_idx y.2) = true

instance pairRel_decidable (oi : ℕ) (im : Bool) :
    DecidableRel (pairRel oi im) := fun _ _ => instDecidableEqBool _ _

/-- The invariant of one complex during `evolve_complexes`: table widths
n_per_complex, rows inside the bounds box, pairs sorted by the selected
objective direction, and each objectives row the evaluation of its
parameter row. -/
structure CxOK {Data Meta Obs Sim ε : Type}
    (simulate : List ℚ → Data → Meta → Except ε Sim)
    (evalSim : Obs → Sim → Except ε (List F))
    (data : Data) (metadata : Meta) (observations : Obs)
    (lb ub : List ℚ) (oi : ℕ) (im : Bool) (npc : ℕ) (c : sce.Complex) :
    Prop where
  len_cx : c.cx.length = npc
  len_cf : c.cf.length = npc
  rows : ∀ r ∈ c.cx, sce.rowOK lb ub r
  sorted : (c.cx.zip c.cf).Pairwise (pairRel oi im)
  cons : ∀ p ∈ c.cx.zip c.cf,
    sce.evalRow simulate evalSim data metadata observations p.1 = .ok p.2

/-- Whether an `Except` value is a success. -/
def isOkE {γ δ : Type _} : Except γ δ → Bool
  | .ok _ => true
  | .error _ => false

/-! ## A concrete engine instance

A minimal one-parameter model used to exercise the optimizer on
concrete inputs: the simulation of a parameter vector is the vector
itself, and scoring compares its single value against the single
observation (squared error in the rmse column), failing on a length
mismatch exactly as `evaluate_simulation` does through the metrics. -/

namespace ex

/-- A concrete uniform stream: 1/4 and 3/4 for the two random rows of
the initial population of `init`, 1/2 everywhere else. -/
def stream : ℕ → ℚ := fun n => if n = 4 then 1 / 4 else if n = 5 then 3 / 4 else 1 / 2

/-- A one-parameter configuration: bounds [0, 1], one complex,
objective rmse, k_stop 1. -/
def cfg : sce.SceConfig :=
  { objective := .rmse
    n_complexes := 1
    k_stop := 1
    p_convergence_threshold := 1 / 10
    geometric_range_threshold := 0
    max_evaluations := 10000
    lower_bounds := [0]
    upper_bounds := [1] }

/-- The model: the simulation equals the parameter vector. -/
def modelFn : List ℚ → Unit → Unit → Except String (List ℚ) :=
  fun p _ _ => .ok p

/-- The scorer: squared error of the single simulated value against the
single observation in the rmse column, failing on a length mismatch. -/
def scoreFn : List ℚ → List ℚ → Except String (List F) :=
  fun observations simulation =>
    if observations.length = simulation.length then
      .ok [F.fin ((simulation.headD 0 - observations.headD 0) ^ 2),
        F.fin 0, F.fin 0]
    else
      .error "length mismatch"

/-- The constructed state. -/
def st0 : sce.SceState := sce.new cfg ⟨stream, 0⟩

/-- The state after a successful `init` against the observation [2]. -/
def stInit : sce.SceState :=
  (sce.init modelFn scoreFn cfg () () [(2 : ℚ)] st0).1

/-- A successful `step` with the same observation. -/
def stepGood := sce.step modelFn scoreFn cfg () () [(2 : ℚ)] stInit

/-- A failing `step`: the observations now have length 2, so every
evaluation fails with a length mismatch. -/
def stepBad := sce.step modelFn scoreFn cfg () () [(2 : ℚ), 0] stInit

end ex

/-! ## Helper lemmas -/

/-- Square roots of the concrete perfect squares of scenario S1. -/
theorem sqrt_four : Real.sqrt 4 = 2 := by
  rw [show (4 : ℝ) = 2 ^ 2 by norm_num, Real.sqrt_sq (by norm_num : (0:ℝ) ≤ 2)]

/-- Square root of 25. -/
theorem sqrt_twentyfive : Real.sqrt 25 = 5 := by
  rw [show (25 : ℝ) = 5 ^ 2 by norm_num, Real.sqrt_sq (by norm_num : (0:ℝ) ≤ 5)]

/-- The product of the two equal standard deviations of scenario S1. -/
theorem sqrt_five_quarters :
    Real.sqrt 5 / Real.sqrt 4 * (Real.sqrt 5 / Real.sqrt 4) = 5 / 4 := by
  rw [div_mul_div_comm, Real.mul_self_sqrt (by norm_num : (0:ℝ) ≤ 5),
    Real.mul_self_sqrt (by norm_num : (0:ℝ) ≤ 4)]

/-! ## Claim C7: the metric scenario S1 -/

/-- Claim C7 counterexample: on obs = [1,2,3,4], sim = [2,3,4,5] the NSE
of metrics.rs is 1 - 4/5 = 1/5, not 0 as the claim states. -/
theorem C7_counterexample :
    metrics.calculate_nse [(1:ℝ), 2, 3, 4] [2, 3, 4, 5] = .ok (1/5) ∧
    metrics.calculate_nse [(1:ℝ), 2, 3, 4] [2, 3, 4, 5] ≠ .ok 0 := by
  have h : metrics.calculate_nse [(1:ℝ), 2, 3, 4] [2, 3, 4, 5] = .ok (1/5) := by
    simp only [metrics.calculate_nse, metrics.check_lengths, Except.bind]
    norm_num [List.zip, List.zipWith, List.foldl, List.sum, List.map]
  refine ⟨h, ?_⟩
  rw [h]
  intro hc
  have := Except.ok.inj hc
  norm_num at this

/-- Claim C7 amended: for obs = [1,2,3,4] and sim = [1,2,3,4] the
metrics return RMSE 0, NSE 1, KGE 1; for obs = [1,2,3,4] and
sim = [2,3,4,5] they return RMSE 1, NSE 1/5 and
KGE = 1 - sqrt(0 + 0 + 0.4^2) = 3/5 (the variability ratio is 1 and the
bias ratio is 3.5/2.5 = 1.4). -/
theorem C7_amended :
    (metrics.calculate_rmse [(1:ℝ), 2, 3, 4] [1, 2, 3, 4] = .ok 0 ∧
     metrics.calculate_nse [(1:ℝ), 2, 3, 4] [1, 2, 3, 4] = .ok 1 ∧
     metrics.calculate_kge [(1:ℝ), 2, 3, 4] [1, 2, 3, 4] = .ok 1) ∧
    (metrics.calculate_rmse [(1:ℝ), 2, 3, 4] [2, 3, 4, 5] = .ok 1 ∧
     metrics.calculate_nse [(1:ℝ), 2, 3, 4] [2, 3, 4, 5] = .ok (1/5) ∧
     metrics.calculate_kge [(1:ℝ), 2, 3, 4] [2, 3, 4, 5] = .ok (3/5) ∧
     (3/5 : ℝ) = 1 - Real.sqrt (0 + 0 + (2/5) ^ 2)) := by
  refine ⟨⟨?_, ?_, ?_⟩, ?_, ?_, ?_, ?_⟩
  · simp only [metrics.calculate_rmse, metrics.check_lengths, Except.bind]
    norm_num [List.zip, List.zipWith, List.foldl, List.sum, List.map]
  · simp only [metrics.calculate_nse, metrics.check_lengths, Except.bind]
    norm_num [List.zip, List.zipWith, List.foldl, List.sum, List.map]
  · simp only [metrics.calculate_kge, metrics.check_lengths, Except.bind]
    norm_num [List.zip, List.zipWith, List.foldl, List.sum, List.map]
    rw [sqrt_five_quarters]
    norm_num
  · simp only [metrics.calculate_rmse, metrics.check_lengths, Except.bind]
    norm_num [List.zip, List.zipWith, List.foldl, List.sum, List.map]
  · simp only [metrics.calculate_nse, metrics.check_lengths, Except.bind]
    norm_num [List.zip, List.zipWith, List.foldl, List.sum, List.map]
  · simp only [metrics.calculate_kge, metrics.check_lengths, Except.bind]
    norm_num [List.zip, List.zipWith, List.foldl, List.sum, List.map]
    rw [sqrt_five_quarters]
    norm_num [sqrt_four, sqrt_twentyfive]
  · rw [show (0:ℝ) + 0 + (2/5)^2 = (2/5)^2 by norm_num,
      Real.sqrt_sq (by norm_num : (0:ℝ) ≤ 2/5)]
    norm_num

/-! ## Claim C8: model and objective name lookup -/

/-- Claim C8 counterexample: the climate model lookup lowercases the
name first, so the upper-case spelling "GR4J" is accepted rather than
rejected. -/
theorem C8_counterexample :
    climateGetModel "GR4J" = .ok .gr4j ∧
    Objective.fromStr "RMSE" = .ok .rmse := by
  constructor <;> decide

/-- Claim C8 amended: the climate model lookup accepts exactly the
strings that lowercase to "gr4j" (case-insensitively) and fails
otherwise; the snow model lookup accepts exactly the case-sensitive
string "cemaneige" and fails otherwise; the objective lookup accepts
"rmse", "nse", "kge" case-insensitively and fails otherwise. -/
theorem C8_amended :
    (∀ s : String, climateGetModel s = .ok .gr4j ↔ toLowerStr s = "gr4j") ∧
    (∀ s : String, (∃ e, climateGetModel s = .error e) ↔ toLowerStr s ≠ "gr4j") ∧
    (∀ s : String, snowGetModel s = .ok .cemaneige ↔ s = "cemaneige") ∧
    (∀ s : String, snowGetModel s = .error (.wrongModel s "cemaneige") ↔
      s ≠ "cemaneige") ∧
    (∀ s : String, (∃ o, Objective.fromStr s = .ok o) ↔
      (toLowerStr s = "rmse" ∨ toLowerStr s = "nse" ∨ toLowerStr s = "kge")) := by
  refine ⟨?_, ?_, ?_, ?_, ?_⟩ <;> intro s
  · unfold climateGetModel
    split
    · simp [*]
    · simp [*]
  · unfold climateGetModel
    split
    · simp [*]
    · simp [*]
  · unfold snowGetModel
    split
    · simp [*]
    · simp [*]
  · unfold snowGetModel
    split
    · simp [*]
    · simp [*]
  · unfold Objective.fromStr
    split
    · simp [*]
    · split
      · simp [*]
      · split
        · simp [*]
        · simp [*]

/-! ## Claim C10: the utils.rs metrics on mismatched lengths -/

/-- Claim C10: whenever the two series differ in length, the utils.rs
metric functions return NaN (none) while the metrics.rs counterparts
fail with LengthMismatch. -/
theorem C10_length_mismatch (observations predictions : List ℝ)
    (h : observations.length ≠ predictions.length) :
    utils.calculate_rmse observations predictions = none ∧
    utils.calculate_nse observations predictions = none ∧
    utils.calculate_kge observations predictions = none ∧
    metrics.calculate_rmse observations predictions =
      .error (.lengthMismatch observations.length predictions.length) ∧
    metrics.calculate_nse observations predictions =
      .error (.lengthMismatch observations.length predictions.length) ∧
    metrics.calculate_kge observations predictions =
      .error (.lengthMismatch observations.length predictions.length) := by
  refine ⟨?_, ?_, ?_, ?_, ?_, ?_⟩ <;>
    simp [utils.calculate_rmse, utils.calculate_nse, utils.calculate_kge,
      metrics.calculate_rmse, metrics.calculate_nse, metrics.calculate_kge,
      metrics.check_lengths, h, Except.bind]

/-- Witness for C10 at a concrete mismatched pair. -/
theorem C10_length_mismatch_witness :
    ([(1:ℝ)].length ≠ ([] : List ℝ).length) ∧
    (utils.calculate_rmse [(1:ℝ)] [] = none ∧
     utils.calculate_nse [(1:ℝ)] [] = none ∧
     utils.calculate_kge [(1:ℝ)] [] = none ∧
     metrics.calculate_rmse [(1:ℝ)] [] =
       .error (.lengthMismatch [(1:ℝ)].length ([] : List ℝ).length) ∧
     metrics.calculate_nse [(1:ℝ)] [] =
       .error (.lengthMismatch [(1:ℝ)].length ([] : List ℝ).length) ∧
     metrics.calculate_kge [(1:ℝ)] [] =
       .error (.lengthMismatch [(1:ℝ)].length ([] : List ℝ).length)) :=
  ⟨by simp, C10_length_mismatch [(1:ℝ)] [] (by simp)⟩

/-! ## Order lemmas for the total f64 order -/

/-- total_cmp is reflexive. -/
theorem F.totalLe_refl (x : F) : F.totalLe x x = true := by
  cases x <;> simp [F.totalLe]

/-- total_cmp is transitive. -/
theorem F.totalLe_trans {a b c : F} (h1 : F.totalLe a b = true)
    (h2 : F.totalLe b c = true) : F.totalLe a c = true := by
  cases a <;> cases b <;> cases c <;> simp_all [F.totalLe] <;>
    exact le_trans h1 h2

/-- total_cmp is total. -/
theorem F.totalLe_total (a b : F) :
    F.totalLe a b = true ∨ F.totalLe b a = true := by
  cases a <;> cases b <;> simp [F.totalLe] <;> exact le_total _ _

/-- The IEEE strict order is irreflexive. -/
theorem F.lt_irrefl (x : F) : F.lt x x = false := by
  cases x <;> simp [F.lt]

/-- The direction order is reflexive. -/
theorem dirLe_refl (m : Bool) (x : F) : sce.dirLe m x x = true := by
  cases m <;> simp [sce.dirLe, F.totalLe_refl]

/-- The direction order is transitive. -/
theorem dirLe_trans (m : Bool) {a b c : F} (h1 : sce.dirLe m a b = true)
    (h2 : sce.dirLe m b c = true) : sce.dirLe m a c = true := by
  cases m <;> simp only [sce.dirLe, if_true, if_false, Bool.false_eq_true] at *
  · exact F.totalLe_trans h2 h1
  · exact F.totalLe_trans h1 h2

/-- The direction order is total. -/
theorem dirLe_total (m : Bool) (a b : F) :
    sce.dirLe m a b = true ∨ sce.dirLe m b a = true := by
  cases m <;> simp only [sce.dirLe, if_true, if_false, Bool.false_eq_true]
  · exact (F.totalLe_total b a).symm.imp id id |>.symm
  · exact F.totalLe_total a b

/-! ## Sorting lemmas for sort_population -/

/-- Mapping the projections and zipping back is the identity. -/
theorem zip_map_fst_snd {α β : Type _} (l : List (α × β)) :
    (l.map Prod.fst).zip (l.map Prod.snd) = l := by
  rw [← List.unzip_fst, ← List.unzip_snd, List.zip_unzip]

/-- The zipped output of `sort_population` is the insertion sort of the
zipped input. -/
theorem sort_population_zip (population : List (List ℚ))
    (objectives : List (List F)) (oi : ℕ) (im : Bool) :
    ((sce.sort_population population objectives oi im).1).zip
      ((sce.sort_population population objectives oi im).2) =
    List.insertionSort (pairRel oi im) (population.zip objectives) :=
  zip_map_fst_snd _

/-- The zipped output of `sort_population` is a permutation of the
zipped input. -/
theorem sort_population_perm (population : List (List ℚ))
    (objectives : List (List F)) (oi : ℕ) (im : Bool) :
    (((sce.sort_population population objectives oi im).1).zip
      ((sce.sort_population population objectives oi im).2)).Perm
      (population.zip objectives) := by
  rw [sort_population_zip]
  exact List.perm_insertionSort _ _

/-- The zipped output of `sort_population` is sorted by the direction
order on the selected objective column. -/
theorem sort_population_sorted (population : List (List ℚ))
    (objectives : List (List F)) (oi : ℕ) (im : Bool) :
    (((sce.sort_population population objectives oi im).1).zip
      ((sce.sort_population population objectives oi im).2)).Pairwise
      (pairRel oi im) := by
  rw [sort_population_zip]
  haveI : IsTotal (List ℚ × List F) (pairRel oi im) :=
    ⟨fun x y => dirLe_total im _ _⟩
  haveI : IsTrans (List ℚ × List F) (pairRel oi im) :=
    ⟨fun _ _ _ => dirLe_trans im⟩
  exact List.sorted_insertionSort _ _

/-- The head of the sorted pairs is at least as good as every input
pair. -/
theorem sort_population_head_min (population : List (List ℚ))
    (objectives : List (List F)) (oi : ℕ) (im : Bool) (d : List ℚ × List F)
    (pr : List ℚ × List F) (hpr : pr ∈ population.zip objectives) :
    pairRel oi im
      ((((sce.sort_population population objectives oi im).1).zip
        ((sce.sort_population population objectives oi im).2)).getD 0 d) pr := by
  have hmem : pr ∈ (((sce.sort_population population objectives oi im).1).zip
      ((sce.sort_population population objectives oi im).2)) :=
    (sort_population_perm population objectives oi im).mem_iff.mpr hpr
  rcases hsp : (((sce.sort_population population objectives oi im).1).zip
      ((sce.sort_population population objectives oi im).2)) with _ | ⟨h, t⟩
  · rw [hsp] at hmem; simp at hmem
  · have hsorted := sort_population_sorted population objectives oi im
    rw [hsp] at hsorted hmem
    rcases List.mem_cons.mp hmem with rfl | hmt
    · simpa using dirLe_refl im _
    · simpa using (List.pairwise_cons.mp hsorted).1 pr hmt

/-! ## The gnrng comparison agrees with the real exp / mean / ln form -/

/-- Casting a rational list product to the reals. -/
theorem cast_list_prod (xs : List ℚ) :
    ((xs.prod : ℚ) : ℝ) = (xs.map (fun x : ℚ => (x : ℝ))).prod := by
  induction xs with
  | nil => simp
  | cons a t ih => simp [ih]

/-- The sum of logs is the log of the product on positive entries. -/
theorem sum_log_eq_log_prod (xs : List ℚ) (h : ∀ x ∈ xs, 0 < x) :
    (xs.map (fun x : ℚ => Real.log (x : ℝ))).sum =
      Real.log ((xs.map (fun x : ℚ => (x : ℝ))).prod) := by
  induction xs with
  | nil => simp
  | cons a t ih =>
      have ha : (0 : ℚ) < a := h a (List.mem_cons_self a t)
      have hprod : (0 : ℝ) < (t.map (fun x : ℚ => (x : ℝ))).prod := by
        apply List.prod_pos
        intro y hy
        rcases List.mem_map.mp hy with ⟨q, hq, rfl⟩
        exact_mod_cast h q (List.mem_cons_of_mem a hq)
      rw [List.map_cons, List.sum_cons, List.map_cons, List.prod_cons,
        Real.log_mul (by exact_mod_cast ha.ne.symm) hprod.ne.symm,
        ih (fun x hx => h x (List.mem_cons_of_mem a hx))]

/-- Every floored normalised range is positive. -/
theorem normalisedRanges_pos (population : List (List ℚ))
    (lower_bounds upper_bounds : List ℚ) :
    ∀ x ∈ sce.normalisedRanges population lower_bounds upper_bounds, 0 < x := by
  intro x hx
  rcases List.mem_map.mp hx with ⟨i, _, rfl⟩
  calc (0 : ℚ) < 1e-10 := by norm_num
    _ ≤ _ := le_max_left _ _

/-- The executable product-form comparison of `step` agrees with the
real gnrng < threshold comparison of the source. -/
theorem gnrngBelow_iff (xs : List ℚ) (t : ℚ) (h : ∀ x ∈ xs, 0 < x) :
    sce.gnrngBelow xs t = true ↔ sce.gnrngReal xs < (t : ℝ) := by
  by_cases hxs : xs = []
  · subst hxs
    simp only [sce.gnrngBelow, sce.gnrngReal, List.length_nil, if_true,
      List.map_nil, List.sum_nil, Nat.cast_zero, div_zero, Real.exp_zero,
      decide_eq_true_eq]
    exact_mod_cast Iff.rfl
  · have hlen : xs.length ≠ 0 := by simpa using hxs
    have hn : (0 : ℝ) < (xs.length : ℝ) := by
      exact_mod_cast Nat.pos_of_ne_zero hlen
    have hprod : (0 : ℝ) < (xs.map (fun x : ℚ => (x : ℝ))).prod := by
      apply List.prod_pos
      intro y hy
      rcases List.mem_map.mp hy with ⟨q, hq, rfl⟩
      exact_mod_cast h q hq
    have main : sce.gnrngReal xs < (t : ℝ) ↔
        (0 < t ∧ xs.prod < t ^ xs.length) := by
      unfold sce.gnrngReal
      rw [sum_log_eq_log_prod xs h]
      constructor
      · intro hr
        have ht : (0 : ℝ) < (t : ℝ) := lt_trans (Real.exp_pos _) hr
        have h1 := (Real.lt_log_iff_exp_lt ht).mpr hr
        have h2 := (div_lt_iff hn).mp h1
        have h3 : Real.log ((xs.map (fun x : ℚ => (x : ℝ))).prod) <
            Real.log ((t : ℝ) ^ xs.length) := by
          rw [Real.log_pow]
          linarith
        have h4 := (Real.log_lt_log_iff hprod (by positivity)).mp h3
        rw [← cast_list_prod] at h4
        exact ⟨by exact_mod_cast ht, by exact_mod_cast h4⟩
      · rintro ⟨ht, hp⟩
        have ht' : (0 : ℝ) < (t : ℝ) := by exact_mod_cast ht
        have h4 : (xs.map (fun x : ℚ => (x : ℝ))).prod < (t : ℝ) ^ xs.length := by
          rw [← cast_list_prod]
          exact_mod_cast hp
        have h3 := (Real.log_lt_log_iff hprod (by positivity)).mpr h4
        rw [Real.log_pow] at h3
        rw [← Real.lt_log_iff_exp_lt ht', div_lt_iff hn]
        linarith
    rw [main]
    unfold sce.gnrngBelow
    rw [if_neg hlen, Bool.and_eq_true, decide_eq_true_eq, decide_eq_true_eq]

/-! ## Claim C9: the GR4J routing store stays positive -/

/-- The routing-store update leaves a strictly positive store: the store
is floored at 1e-3 * x3 before outflow and the routed-flow subtraction
multiplies it by the positive factor (1 + (store/x3)^4)^(-1/4). -/
theorem update_routing_pos (store : ℝ) (hg uhs : List ℝ × List ℝ)
    (rp x2 x3 : ℝ) (hx3 : 0 < x3) :
    0 < (gr4j.update_routing store hg uhs rp x2 x3).1 := by
  simp only [gr4j.update_routing]
  set hs := gr4j.update_hydrographs rp hg uhs with hhs
  set s1 : ℝ := max (1e-3 * x3)
    (store + hs.1.getD 0 0 + x2 * (store / x3) ^ (3.5:ℝ)) with hs1
  have hpos : 0 < s1 := by
    have h0 : (0:ℝ) < 1e-3 * x3 := by positivity
    exact lt_max_iff.mpr (Or.inl h0)
  have hb : (0:ℝ) < 1 + (s1 / x3) ^ (4:ℕ) := by positivity
  have hz : (0:ℝ) < (1 + (s1 / x3) ^ (4:ℕ)) ^ (-0.25:ℝ) :=
    Real.rpow_pos_of_pos hb _
  nlinarith [mul_pos hpos hz]

/-- Along any run of the per-timestep update the routing store stays
strictly positive, from any starting state. -/
theorem run_routing_pos (x1 x2 x3 : ℝ) (hx3 : 0 < x3)
    (uhs : List ℝ × List ℝ) :
    ∀ (forcing : List (ℝ × ℝ)) (st : gr4j.State),
      ∀ sq ∈ gr4j.run x1 x2 x3 uhs st forcing, 0 < sq.1.routingStore := by
  intro forcing
  induction forcing with
  | nil => intro st sq hsq; simp [gr4j.run] at hsq
  | cons f rest ih =>
      intro st sq hsq
      simp only [gr4j.run, List.mem_cons] at hsq
      rcases hsq with h | h
      · subst h
        exact update_routing_pos _ _ _ _ _ _ hx3
      · exact ih _ sq h

/-- Claim C9: gr4j simulate accepts exactly the four-parameter vectors,
and with x3 > 0 the routing store is strictly positive after every
timestep of the simulation. -/
theorem C9_routing_store_positive (x1 x2 x3 x4 : ℝ)
    (precipitation pet : List ℝ) (hx3 : 0 < x3) :
    (∃ discharge,
      gr4j.simulate [x1, x2, x3, x4] precipitation pet = .ok discharge) ∧
    (∀ (store : ℝ) (hg : List ℝ × List ℝ) (rp x2' : ℝ),
      0 < (gr4j.update_routing store hg
        (gr4j.create_unit_hydrographs x4) rp x2' x3).1) ∧
    ∀ sq ∈ gr4j.run x1 x2 x3 (gr4j.create_unit_hydrographs x4)
        (gr4j.initState x1 x3 x4) (precipitation.zip pet),
      0 < sq.1.routingStore := by
  refine ⟨⟨_, rfl⟩, ?_, ?_⟩
  · intro store hg rp x2'
    exact update_routing_pos _ _ _ _ _ _ hx3
  · exact run_routing_pos x1 x2 x3 hx3 _ _ _

/-! ## Claim C1: determinism of the optimizer -/

/-- Claim C1: two runs that construct with the same arguments (model,
scorer, configuration, seed stream), call init and then step the same
number of times with identical inputs produce identical results: the
same init outcome, the same state (population, objectives, criteria,
best params) after every number of steps, and the same step outputs
(done, best_params, best_simulation, best_objectives) at every step. -/
theorem C1_determinism {Data Meta Obs Sim ε : Type}
    (simulate₁ simulate₂ : List ℚ → Data → Meta → Except ε Sim)
    (evalSim₁ evalSim₂ : Obs → Sim → Except ε (List F))
    (cfg₁ cfg₂ : sce.SceConfig) (stream₁ stream₂ : ℕ → ℚ)
    (data₁ data₂ : Data) (metadata₁ metadata₂ : Meta)
    (observations₁ observations₂ : Obs) (n₁ n₂ : ℕ)
    (hs : simulate₁ = simulate₂) (he : evalSim₁ = evalSim₂)
    (hc : cfg₁ = cfg₂) (hr : stream₁ = stream₂) (hd : data₁ = data₂)
    (hm : metadata₁ = metadata₂) (ho : observations₁ = observations₂)
    (hn : n₁ = n₂) :
    sce.runSce simulate₁ evalSim₁ cfg₁ ⟨stream₁, 0⟩ data₁ metadata₁
        observations₁ n₁ =
      sce.runSce simulate₂ evalSim₂ cfg₂ ⟨stream₂, 0⟩ data₂ metadata₂
        observations₂ n₂ ∧
    ∀ k, sce.runSteps simulate₁ evalSim₁ cfg₁ data₁ metadata₁ observations₁ k
        (sce.init simulate₁ evalSim₁ cfg₁ data₁ metadata₁ observations₁
          (sce.new cfg₁ ⟨stream₁, 0⟩)).1 =
      sce.runSteps simulate₂ evalSim₂ cfg₂ data₂ metadata₂ observations₂ k
        (sce.init simulate₂ evalSim₂ cfg₂ data₂ metadata₂ observations₂
          (sce.new cfg₂ ⟨stream₂, 0⟩)).1 := by
  subst hs he hc hr hd hm ho hn
  exact ⟨rfl, fun _ => rfl⟩

/-- Witness for C1 at the concrete instance. -/
theorem C1_determinism_witness :
    sce.runSce ex.modelFn ex.scoreFn ex.cfg ⟨ex.stream, 0⟩ () ()
        [(2:ℚ)] 2 =
      sce.runSce ex.modelFn ex.scoreFn ex.cfg ⟨ex.stream, 0⟩ () ()
        [(2:ℚ)] 2 ∧
    ∀ k, sce.runSteps ex.modelFn ex.scoreFn ex.cfg () () [(2:ℚ)] k
        (sce.init ex.modelFn ex.scoreFn ex.cfg () () [(2:ℚ)]
          (sce.new ex.cfg ⟨ex.stream, 0⟩)).1 =
      sce.runSteps ex.modelFn ex.scoreFn ex.cfg () () [(2:ℚ)] k
        (sce.init ex.modelFn ex.scoreFn ex.cfg () () [(2:ℚ)]
          (sce.new ex.cfg ⟨ex.stream, 0⟩)).1 :=
  C1_determinism ex.modelFn ex.modelFn ex.scoreFn ex.scoreFn ex.cfg ex.cfg
    ex.stream ex.stream () () () () [(2:ℚ)] [(2:ℚ)] 2 2
    rfl rfl rfl rfl rfl rfl rfl rfl

/-! ## Claim C2: failure semantics of init and step -/

/-- Claim C2 amended: a failing evaluation propagates as a fatal error,
but the state is partially mutated: a failing `init` leaves every field
unchanged except the random generator, which has advanced by the
population draws; a failing `step` on a non-done optimizer leaves the
population and objective tables empty (taken by `std::mem::take` and
never restored). -/
theorem C2_failure_semantics {Data Meta Obs Sim ε : Type}
    (simulateF : List ℚ → Data → Meta → Except ε Sim)
    (evalSimF : Obs → Sim → Except ε (List F))
    (cfg : sce.SceConfig) (data : Data) (metadata : Meta) (observations : Obs)
    (st : sce.SceState) :
    (∀ e : ε,
      (sce.init simulateF evalSimF cfg data metadata observations st).2 =
        .error e →
      (sce.init simulateF evalSimF cfg data metadata observations st).1 =
        { st with rng := (sce.generate_initial_population st.population.length
            cfg.lower_bounds cfg.upper_bounds st.rng).2 }) ∧
    (st.done = false → ∀ e : ε,
      (sce.step simulateF evalSimF cfg data metadata observations st).2 =
        .error e →
      (sce.step simulateF evalSimF cfg data metadata observations
        st).1.population = [] ∧
      (sce.step simulateF evalSimF cfg data metadata observations
        st).1.objectives = []) := by
  constructor
  · intro e
    unfold sce.init
    dsimp only
    rcases hev : sce.evaluate_initial_population simulateF evalSimF data metadata
      observations (sce.generate_initial_population st.population.length
        cfg.lower_bounds cfg.upper_bounds st.rng).1 cfg.objective with e2 | po
    · intro _he
      rfl
    · intro he
      simp at he
  · intro hdone e
    unfold sce.step
    rw [hdone]
    simp only [Bool.false_eq_true, if_false]
    rcases hev : sce.evolve_complexes simulateF evalSimF cfg.lower_bounds
      cfg.upper_bounds data metadata observations
      (sce.objectiveIdx cfg.objective) (sce.isMinimization cfg.objective)
      cfg.n_per_complex cfg.n_simplex cfg.n_evolution_steps
      (sce.partition_into_complexes st.population st.objectives cfg.n_complexes)
      st.n_calls st.rng with ⟨res, rng⟩
    cases res with
    | error e2 => intro _he; exact ⟨rfl, rfl⟩
    | ok er =>
        dsimp only
        rcases hsim : simulateF ((sce.merge_complexes er.1
          (sce.objectiveIdx cfg.objective)
          (sce.isMinimization cfg.objective)).1.getD 0 [])
          data metadata with e3 | bs
        · intro _he
          exact ⟨rfl, rfl⟩
        · intro he
          simp at he

unseal Rat.add Rat.mul Rat.inv Rat.sub in
/-- Claim C2 counterexample: after a successful init (nonempty
population), a step whose evaluations fail (observations of a different
length) propagates the error but leaves the population and objective
tables empty, not as they were before the call. -/
theorem C2_counterexample :
    ex.stInit.population ≠ [] ∧
    ex.stepBad.2 = .error "length mismatch" ∧
    ex.stepBad.1.population = [] ∧
    ex.stepBad.1.objectives = [] :=
  ⟨by decide, by decide, by decide, by decide⟩

unseal Rat.add Rat.mul Rat.inv Rat.sub in
/-- Witness for C2 at the concrete instance: a failing init and a
failing step. -/
theorem C2_failure_semantics_witness :
    ((sce.init ex.modelFn ex.scoreFn ex.cfg () () [(2:ℚ), 0] ex.st0).1 =
      { ex.st0 with rng := (sce.generate_initial_population
          ex.st0.population.length ex.cfg.lower_bounds ex.cfg.upper_bounds
          ex.st0.rng).2 }) ∧
    (ex.stepBad.1.population = [] ∧ ex.stepBad.1.objectives = []) :=
  ⟨(C2_failure_semantics ex.modelFn ex.scoreFn ex.cfg () () [(2:ℚ), 0]
      ex.st0).1 "length mismatch" (by decide),
   (C2_failure_semantics ex.modelFn ex.scoreFn ex.cfg () () [(2:ℚ), 0]
      ex.stInit).2 (by decide) "length mismatch" (by decide)⟩

/-! ## Claim C3: the convergence criteria of step -/

/-- Claim C3 amended: after a successful step the criteria history is
the old history with the new best objective appended; the done flag is
set exactly when n_calls exceeds max_evaluations, or the real geometric
range gnrng = exp(mean(ln(max(1e-10, range_i)))) is below the threshold,
or the criteria change is below the convergence threshold, where the
criteria change (`criteriaChange`) divides |c[last] - c[last-k_stop+1]|
* 100 (the difference with the first entry of the k_stop-long window,
not with c[last-k_stop] as the claim states) by the window's mean
absolute value, and is +inf while fewer than k_stop criteria exist or
that mean is not positive. -/
theorem C3_convergence {Data Meta Obs Sim ε : Type}
    (simulateF : List ℚ → Data → Meta → Except ε Sim)
    (evalSimF : Obs → Sim → Except ε (List F))
    (cfg : sce.SceConfig) (data : Data) (metadata : Meta) (observations : Obs)
    (st : sce.SceState) (hdone : st.done = false) (hk : 1 ≤ cfg.k_stop) :
    ∀ out,
      (sce.step simulateF evalSimF cfg data metadata observations st).2 =
        .ok out →
      ((sce.step simulateF evalSimF cfg data metadata observations
          st).1.criteria =
        st.criteria ++ [sce.objVal (sce.objectiveIdx cfg.objective)
          ((sce.step simulateF evalSimF cfg data metadata observations
            st).1.objectives.getD 0 [])]) ∧
      ((sce.step simulateF evalSimF cfg data metadata observations st).1.done =
          true ↔
        (cfg.max_evaluations <
          (sce.step simulateF evalSimF cfg data metadata observations
            st).1.n_calls ∨
         sce.gnrngReal (sce.normalisedRanges
           (sce.step simulateF evalSimF cfg data metadata observations
             st).1.population
           cfg.lower_bounds cfg.upper_bounds) <
             (cfg.geometric_range_threshold : ℝ) ∨
         F.lt (sce.criteriaChange
             (sce.step simulateF evalSimF cfg data metadata observations
               st).1.criteria
             cfg.k_stop)
           (F.fin cfg.p_convergence_threshold) = true)) ∧
      (∀ c : List F, c.length < cfg.k_stop →
        sce.criteriaChange c cfg.k_stop = F.inf) := by
  intro out
  unfold sce.step
  rw [hdone]
  simp only [Bool.false_eq_true, if_false]
  rcases hev : sce.evolve_complexes simulateF evalSimF cfg.lower_bounds
    cfg.upper_bounds data metadata observations
    (sce.objectiveIdx cfg.objective) (sce.isMinimization cfg.objective)
    cfg.n_per_complex cfg.n_simplex cfg.n_evolution_steps
    (sce.partition_into_complexes st.population st.objectives cfg.n_complexes)
    st.n_calls st.rng with ⟨res, rng⟩
  cases res with
  | error e2 => intro he; simp at he
  | ok er =>
      dsimp only
      rcases hsim : simulateF ((sce.merge_complexes er.1
        (sce.objectiveIdx cfg.objective)
        (sce.isMinimization cfg.objective)).1.getD 0 [])
        data metadata with e3 | bs
      · intro he; simp at he
      · intro _he
        refine ⟨rfl, ?_, ?_⟩
        · dsimp only
          rw [Bool.or_eq_true, Bool.or_eq_true, decide_eq_true_eq]
          rw [gnrngBelow_iff _ _ (normalisedRanges_pos _ _ _)]
          constructor
          · rintro (⟨h1 | h2⟩ | h3)
            · exact Or.inl h1
            · exact Or.inr (Or.inl h2)
            · exact Or.inr (Or.inr h3)
          · rintro (h1 | h2 | h3)
            · exact Or.inl (Or.inl h1)
            · exact Or.inl (Or.inr h2)
            · exact Or.inr h3
        · intro c hc
          unfold sce.criteriaChange
          rw [if_neg (by omega)]

unseal Rat.add Rat.mul Rat.inv Rat.sub in
/-- Claim C3 counterexample: on the concrete run the step marks the
optimizer done (the source change, which subtracts the first entry of
the k_stop-window, is 0 < 0.1), although the claim's formula
|c[last] - c[last-k_stop]| * 100 / mean gives 225/4 = 56.25, which is
not below the threshold, while no other done condition holds (5 calls
is far below max_evaluations and the product-form gnrng comparison
against the threshold 0 is false). -/
theorem C3_counterexample :
    ex.stepGood.1.done = true ∧
    ex.stepGood.1.criteria = [F.fin (25/16), F.fin 1] ∧
    sce.criteriaChange ex.stepGood.1.criteria ex.cfg.k_stop = F.fin 0 ∧
    sce.criteriaChangeClaim ex.stepGood.1.criteria ex.cfg.k_stop =
      F.fin (225/4) ∧
    F.lt (F.fin (225/4)) (F.fin ex.cfg.p_convergence_threshold) = false ∧
    ex.stepGood.1.n_calls ≤ ex.cfg.max_evaluations ∧
    sce.gnrngBelow (sce.normalisedRanges ex.stepGood.1.population
      ex.cfg.lower_bounds ex.cfg.upper_bounds)
      ex.cfg.geometric_range_threshold = false :=
  ⟨by decide, by decide, by decide, by decide, by decide, by decide,
   by decide⟩

unseal Rat.add Rat.mul Rat.inv Rat.sub in
/-- Witness for C3 at the concrete instance. -/
theorem C3_convergence_witness :
    (ex.stepGood.1.criteria =
      ex.stInit.criteria ++ [sce.objVal (sce.objectiveIdx ex.cfg.objective)
        (ex.stepGood.1.objectives.getD 0 [])]) ∧
    (ex.stepGood.1.done = true ↔
      (ex.cfg.max_evaluations < ex.stepGood.1.n_calls ∨
       sce.gnrngReal (sce.normalisedRanges ex.stepGood.1.population
         ex.cfg.lower_bounds ex.cfg.upper_bounds) <
           (ex.cfg.geometric_range_threshold : ℝ) ∨
       F.lt (sce.criteriaChange ex.stepGood.1.criteria ex.cfg.k_stop)
         (F.fin ex.cfg.p_convergence_threshold) = true)) ∧
    (∀ c : List F, c.length < ex.cfg.k_stop →
      sce.criteriaChange c ex.cfg.k_stop = F.inf) :=
  C3_convergence ex.modelFn ex.scoreFn ex.cfg () () [(2:ℚ)] ex.stInit
    (by decide) (by decide) (true, [1], [1], [F.fin 1, F.fin 0, F.fin 0])
    (by decide)

/-! ## Claim C6: NaN objective values -/

/-- Claim C6 amended: a NaN objective is not an error (the metrics fail
only on a length mismatch); NaN is the greatest value of the total
order used by every sort; the is_worse acceptance test treats a NaN
candidate as not worse (IEEE comparisons with NaN are false); and the
sorted population is ordered by total_cmp ascending for RMSE and
descending for NSE/KGE, so a NaN candidate is ranked last (worst) when
the objective is minimized but first (best) when it is maximized. -/
theorem C6_nan_semantics :
    (∀ x : F, F.totalLe x F.nan = true) ∧
    (∀ x : F, F.totalLe F.nan x = true → x = F.nan) ∧
    (∀ m : Bool, ∀ fw : F, sce.is_worse m F.nan fw = false) ∧
    (∀ obs simu : List ℝ, obs.length = simu.length →
      (metrics.calculate_rmse obs simu).isOk = true ∧
      (metrics.calculate_nse obs simu).isOk = true ∧
      (metrics.calculate_kge obs simu).isOk = true) ∧
    (∀ (population : List (List ℚ)) (objectives : List (List F)) oi im,
      (((sce.sort_population population objectives oi im).1).zip
        ((sce.sort_population population objectives oi im).2)).Pairwise
        (pairRel oi im)) := by
  refine ⟨?_, ?_, ?_, ?_, ?_⟩
  · intro x; cases x <;> simp [F.totalLe]
  · intro x; cases x <;> simp [F.totalLe]
  · intro m fw
    cases m <;> cases fw <;> simp [sce.is_worse, F.lt]
  · intro obs simu h
    refine ⟨?_, ?_, ?_⟩ <;>
      simp [metrics.calculate_rmse, metrics.calculate_nse,
        metrics.calculate_kge, metrics.check_lengths, h, Except.bind,
        Except.isOk, Except.toBool]
  · intro population objectives oi im
    exact sort_population_sorted population objectives oi im

/-- Witness for C6 at a concrete equal-length pair. -/
theorem C6_nan_semantics_witness :
    ([(1:ℝ)].length = [(2:ℝ)].length) ∧
    ((metrics.calculate_rmse [(1:ℝ)] [2]).isOk = true ∧
     (metrics.calculate_nse [(1:ℝ)] [2]).isOk = true ∧
     (metrics.calculate_kge [(1:ℝ)] [2]).isOk = true) :=
  ⟨rfl, C6_nan_semantics.2.2.2.1 [(1:ℝ)] [2] rfl⟩

/-- Claim C6 counterexample: with the maximized NSE objective (column
1), a row whose objective is NaN is sorted to position 0 - it is ranked
best, not worst, because the descending sort puts the greatest
total-order value first. -/
theorem C6_counterexample :
    (sce.sort_population [[(1:ℚ)], [2]]
      [[F.fin 0, F.fin (1/2), F.fin 0], [F.fin 0, F.nan, F.nan]]
      1 false).2.getD 0 [] = [F.fin 0, F.nan, F.nan] ∧
    (sce.sort_population [[(1:ℚ)], [2]]
      [[F.fin 0, F.fin (1/2), F.fin 0], [F.fin 0, F.nan, F.nan]]
      1 false).1.getD 0 [] = [2] :=
  ⟨by decide, by decide⟩

/-- Witness for C9 at concrete parameters and forcing. -/
theorem C9_routing_store_positive_witness :
    ((0:ℝ) < 69) ∧
    ((∃ discharge,
      gr4j.simulate [(320:ℝ), -1/10, 69, 1] [0, 0] [1, 1] = .ok discharge) ∧
    (∀ (store : ℝ) (hg : List ℝ × List ℝ) (rp x2' : ℝ),
      0 < (gr4j.update_routing store hg
        (gr4j.create_unit_hydrographs 1) rp x2' 69).1) ∧
    ∀ sq ∈ gr4j.run 320 (-1/10) 69 (gr4j.create_unit_hydrographs 1)
        (gr4j.initState 320 69 1) ([(0:ℝ), 0].zip [1, 1]),
      0 < sq.1.routingStore) :=
  ⟨by norm_num,
   C9_routing_store_positive 320 (-1/10) 69 1 [0, 0] [1, 1] (by norm_num)⟩

/-! ## Vector component lemmas -/

/-- Component of a vector sum. -/
theorem getD_vadd (a b : List ℚ) (i : ℕ) (ha : i < a.length)
    (hb : i < b.length) :
    (sce.vadd a b).getD i 0 = a.getD i 0 + b.getD i 0 := by
  have hz : i < (sce.vadd a b).length := by
    simp only [sce.vadd, List.length_map, List.length_zip]
    omega
  rw [List.getD_eq_getElem _ _ hz, List.getD_eq_getElem _ _ ha,
    List.getD_eq_getElem _ _ hb]
  simp [sce.vadd]

/-- Component of a vector difference. -/
theorem getD_vsub (a b : List ℚ) (i : ℕ) (ha : i < a.length)
    (hb : i < b.length) :
    (sce.vsub a b).getD i 0 = a.getD i 0 - b.getD i 0 := by
  have hz : i < (sce.vsub a b).length := by
    simp only [sce.vsub, List.length_map, List.length_zip]
    omega
  rw [List.getD_eq_getElem _ _ hz, List.getD_eq_getElem _ _ ha,
    List.getD_eq_getElem _ _ hb]
  simp [sce.vsub]

/-- Component of a scalar multiple. -/
theorem getD_smul (c : ℚ) (a : List ℚ) (i : ℕ) (ha : i < a.length) :
    (sce.smul c a).getD i 0 = c * a.getD i 0 := by
  have hz : i < (sce.smul c a).length := by
    simpa [sce.smul] using ha
  rw [List.getD_eq_getElem _ _ hz, List.getD_eq_getElem _ _ ha]
  simp [sce.smul]

/-- Length of a scaled row. -/
theorem scaleRow_length (lb ub r : List ℚ) (hub : ub.length = lb.length)
    (hr : r.length = lb.length) :
    (sce.scaleRow lb ub r).length = lb.length := by
  simp only [sce.scaleRow, sce.vadd, sce.vsub, List.length_map,
    List.length_zip]
  omega

/-- Component of a scaled row. -/
theorem getD_scaleRow (lb ub r : List ℚ) (hub : ub.length = lb.length)
    (hr : r.length = lb.length) (i : ℕ) (hi : i < lb.length) :
    (sce.scaleRow lb ub r).getD i 0 =
      r.getD i 0 * (ub.getD i 0 - lb.getD i 0) + lb.getD i 0 := by
  have hz : i < (sce.scaleRow lb ub r).length := by
    rw [scaleRow_length lb ub r hub hr]; exact hi
  rw [List.getD_eq_getElem _ _ hz,
    List.getD_eq_getElem _ _ (show i < r.length by omega),
    List.getD_eq_getElem _ _ (show i < ub.length by omega),
    List.getD_eq_getElem _ _ hi]
  simp [sce.scaleRow, sce.vadd, sce.vsub]

/-- A row of unit draws scaled into the bounds box lies in the box. -/
theorem scaleRow_rowOK (lb ub r : List ℚ) (hub : ub.length = lb.length)
    (hr : r.length = lb.length)
    (hrange : ∀ i < r.length, 0 ≤ r.getD i 0 ∧ r.getD i 0 < 1)
    (hle : ∀ i < lb.length, lb.getD i 0 ≤ ub.getD i 0) :
    sce.rowOK lb ub (sce.scaleRow lb ub r) := by
  refine ⟨scaleRow_length lb ub r hub hr, ?_⟩
  intro i hi
  rw [scaleRow_length lb ub r hub hr] at hi
  rw [getD_scaleRow lb ub r hub hr i hi]
  have h1 := hrange i (by omega)
  have h2 := hle i hi
  constructor
  · nlinarith [h1.1, h1.2, h2]
  · nlinarith [h1.1, h1.2, h2]

/-- The midpoint row lies in the bounds box. -/
theorem midpoint_rowOK (lb ub : List ℚ) (hub : ub.length = lb.length)
    (hle : ∀ i < lb.length, lb.getD i 0 ≤ ub.getD i 0) :
    sce.rowOK lb ub ((lb.zip ub).map (fun p => (p.1 + p.2) / 2)) := by
  have hlen : ((lb.zip ub).map (fun p : ℚ × ℚ => (p.1 + p.2) / 2)).length
      = lb.length := by
    simp [List.length_zip]
    omega
  refine ⟨hlen, ?_⟩
  intro i hi
  rw [hlen] at hi
  have hz : i < ((lb.zip ub).map (fun p : ℚ × ℚ => (p.1 + p.2) / 2)).length := by
    rw [hlen]; exact hi
  rw [List.getD_eq_getElem _ _ hz,
    List.getD_eq_getElem _ _ hi,
    List.getD_eq_getElem _ _ (show i < ub.length by omega)]
  simp only [List.getElem_map, List.getElem_zip]
  have h2 := hle i hi
  rw [List.getD_eq_getElem _ _ hi,
    List.getD_eq_getElem _ _ (show i < ub.length by omega)] at h2
  constructor <;> nlinarith [h2]

/-- Every row of the generated initial population lies in the bounds
box. -/
theorem generate_initial_population_rowOK (size : ℕ) (lb ub : List ℚ)
    (rng : Rng) (hub : ub.length = lb.length)
    (hle : ∀ i < lb.length, lb.getD i 0 ≤ ub.getD i 0)
    (hstream : sce.StreamOK rng.stream) :
    ∀ r ∈ (sce.generate_initial_population size lb ub rng).1, sce.rowOK lb ub r := by
  intro r hr
  unfold sce.generate_initial_population at hr
  dsimp only at hr
  rcases List.mem_or_eq_of_mem_set hr with hmem | rfl
  · rcases List.mem_map.mp hmem with ⟨draws, hdraws, rfl⟩
    rcases List.mem_map.mp hdraws with ⟨j, _, rfl⟩
    apply scaleRow_rowOK lb ub _ hub (by simp)
    · intro i hi
      simp only [List.length_map, List.length_range] at hi
      have hz : i < (List.map (fun k => rng.stream (rng.pos + j * lb.length + k))
          (List.range lb.length)).length := by simpa using hi
      rw [List.getD_eq_getElem _ _ hz]
      simp only [List.getElem_map, List.getElem_range]
      exact hstream _
    · exact hle
  · exact midpoint_rowOK lb ub hub hle

/-! ## Simplex index selection lemmas -/

/-- The fold of max over a list is bounded by any bound of its
members. -/
theorem foldr_max_le (l : List ℕ) (c : ℕ) (h : ∀ x ∈ l, x ≤ c) :
    l.foldr max 0 ≤ c := by
  induction l with
  | nil => exact Nat.zero_le c
  | cons a t ih =>
      exact max_le (h a (List.mem_cons_self a t))
        (ih (fun x hx => h x (List.mem_cons_of_mem a hx)))

/-- The triangular-bias index stays below n_per_complex for draws in
[0, 1). -/
theorem lposQ_le (n : ℕ) (hn : 1 ≤ n) (u : ℚ) (hu0 : 0 ≤ u) (hu1 : u < 1) :
    sce.lposQ n u ≤ n - 1 := by
  unfold sce.lposQ
  dsimp only
  split
  · omega
  · apply foldr_max_le
    intro x hx
    rcases List.mem_filter.mp hx with ⟨hxr, hxp⟩
    have hxn : x < n + 1 := List.mem_range.mp hxr
    rcases Nat.lt_or_ge x n with h | h
    · omega
    · exfalso
      have hxeq : x = n := by omega
      have hb := of_decide_eq_true hxp
      rw [hxeq] at hb
      have hN : (1:ℚ) ≤ (n:ℚ) := by exact_mod_cast hn
      push_cast at hb
      have hNN : (0:ℚ) < (n:ℚ) * ((n:ℚ) + 1) := by nlinarith [hN]
      have key : (n:ℚ) * ((n:ℚ) + 1) * u < (n:ℚ) * ((n:ℚ) + 1) := by
        nlinarith [hNN, hu1]
      nlinarith [hb, key]

/-- The retry loop returns an index below n_per_complex and keeps the
stream. -/
theorem drawIndex_props (n : ℕ) (hn : 1 ≤ n) (indices : List ℕ) :
    ∀ (fuel : ℕ) (rng : Rng), sce.StreamOK rng.stream →
      (sce.drawIndex n indices fuel rng).1 ≤ n - 1 ∧
      (sce.drawIndex n indices fuel rng).2.stream = rng.stream := by
  intro fuel
  induction fuel with
  | zero =>
      intro rng _h
      exact ⟨Nat.zero_le _, rfl⟩
  | succ fuel ih =>
      intro rng hstream
      unfold sce.drawIndex
      dsimp only
      split
      · exact ih _ hstream
      · exact ⟨lposQ_le n hn _ (hstream rng.pos).1 (hstream rng.pos).2, rfl⟩

/-- Fold invariant for the slot loop of `select_simplex_indices`. -/
theorem select_fold_invariant (n : ℕ) (hn : 1 ≤ n) :
    ∀ (l : List ℕ) (acc : List ℕ × Rng),
      acc.1 ≠ [] → (∀ i ∈ acc.1, i ≤ n - 1) → sce.StreamOK acc.2.stream →
      (l.foldl (fun (acc : List ℕ × Rng) _ =>
        let lr := sce.drawIndex n acc.1 1000 acc.2
        (acc.1 ++ [lr.1], lr.2)) acc).1 ≠ [] ∧
      (l.foldl (fun (acc : List ℕ × Rng) _ =>
        let lr := sce.drawIndex n acc.1 1000 acc.2
        (acc.1 ++ [lr.1], lr.2)) acc).1.length = acc.1.length + l.length ∧
      (∀ i ∈ (l.foldl (fun (acc : List ℕ × Rng) _ =>
        let lr := sce.drawIndex n acc.1 1000 acc.2
        (acc.1 ++ [lr.1], lr.2)) acc).1, i ≤ n - 1) ∧
      (l.foldl (fun (acc : List ℕ × Rng) _ =>
        let lr := sce.drawIndex n acc.1 1000 acc.2
        (acc.1 ++ [lr.1], lr.2)) acc).2.stream = acc.2.stream := by
  intro l
  induction l with
  | nil =>
      intro acc h1 h2 h3
      exact ⟨h1, by simp, h2, rfl⟩
  | cons a t ih =>
      intro acc h1 h2 h3
      simp only [List.foldl_cons]
      have hd := drawIndex_props n hn acc.1 1000 acc.2 h3
      have hres := ih (acc.1 ++ [(sce.drawIndex n acc.1 1000 acc.2).1],
          (sce.drawIndex n acc.1 1000 acc.2).2)
        (by simp) ?_ (by rw [hd.2]; exact h3)
      · refine ⟨hres.1, ?_, hres.2.2.1, ?_⟩
        · rw [hres.2.1]
          simp only [List.length_append, List.length_cons, List.length_nil,
            List.length_cons]
          omega
        · rw [hres.2.2.2, hd.2]
      · intro i hi
        rcases List.mem_append.mp hi with hi | hi
        · exact h2 i hi
        · rcases List.mem_singleton.mp hi with rfl
          exact hd.1

/-- The selected simplex indices: nonempty, of length n_simplex, all
inside the complex, sorted ascending, and the stream is unchanged. -/
theorem select_simplex_indices_props (n ns : ℕ) (hn : 1 ≤ n) (hns : 1 ≤ ns)
    (rng : Rng) (hstream : sce.StreamOK rng.stream) :
    (sce.select_simplex_indices n ns rng).1 ≠ [] ∧
    (sce.select_simplex_indices n ns rng).1.length = ns ∧
    (∀ i ∈ (sce.select_simplex_indices n ns rng).1, i ≤ n - 1) ∧
    (sce.select_simplex_indices n ns rng).1.Pairwise (fun a b => a ≤ b) ∧
    (sce.select_simplex_indices n ns rng).2.stream = rng.stream := by
  unfold sce.select_simplex_indices
  dsimp only
  have hinv := select_fold_invariant n hn (List.range (ns - 1)) ([0], rng)
    (by simp) ?_ hstream
  · have hperm := List.perm_insertionSort (fun a b : ℕ => a ≤ b)
      ((List.range (ns - 1)).foldl (fun (acc : List ℕ × Rng) _ =>
        let lr := sce.drawIndex n acc.1 1000 acc.2
        (acc.1 ++ [lr.1], lr.2)) ([0], rng)).1
    refine ⟨?_, ?_, ?_, ?_, hinv.2.2.2⟩
    · intro hnil
      have := hperm.length_eq
      rw [hnil] at this
      simp only [List.length_nil] at this
      rw [hinv.2.1] at this
      simp only [List.length_cons, List.length_nil, List.length_range] at this
      omega
    · rw [List.length_insertionSort, hinv.2.1]
      simp only [List.length_cons, List.length_nil, List.length_range]
      omega
    · intro i hi
      exact hinv.2.2.1 i (hperm.mem_iff.mp hi)
    · exact List.sorted_insertionSort (fun a b : ℕ => a ≤ b) _
  · intro i hi
    rcases List.mem_singleton.mp hi with rfl
    omega

/-! ## Centroid and candidate lemmas -/

/-- The fold of vector sums over same-length rows keeps the length. -/
theorem foldl_vadd_length (n : ℕ) :
    ∀ (rows : List (List ℚ)) (acc : List ℚ), acc.length = n →
      (∀ r ∈ rows, r.length = n) → (rows.foldl sce.vadd acc).length = n := by
  intro rows
  induction rows with
  | nil => intro acc h _; simpa using h
  | cons r t ih =>
      intro acc hacc hrows
      simp only [List.foldl_cons]
      apply ih
      · simp only [sce.vadd, List.length_map, List.length_zip]
        rw [hacc, hrows r (List.mem_cons_self r t)]
        omega
      · intro s hs; exact hrows s (List.mem_cons_of_mem r hs)

/-- Componentwise bounds for the fold of vector sums. -/
theorem foldl_vadd_bounds (lb ub : List ℚ) :
    ∀ (rows : List (List ℚ)) (acc : List ℚ) (m : ℕ),
      acc.length = lb.length →
      (∀ i < lb.length, (m : ℚ) * lb.getD i 0 ≤ acc.getD i 0 ∧
        acc.getD i 0 ≤ (m : ℚ) * ub.getD i 0) →
      (∀ r ∈ rows, sce.rowOK lb ub r) →
      ∀ i < lb.length,
        ((m + rows.length : ℕ) : ℚ) * lb.getD i 0 ≤
          (rows.foldl sce.vadd acc).getD i 0 ∧
        (rows.foldl sce.vadd acc).getD i 0 ≤
          ((m + rows.length : ℕ) : ℚ) * ub.getD i 0 := by
  intro rows
  induction rows with
  | nil =>
      intro acc m hacc hbounds _ i hi
      simpa using hbounds i hi
  | cons r t ih =>
      intro acc m hacc hbounds hrows i hi
      simp only [List.foldl_cons, List.length_cons]
      have hrOK := hrows r (List.mem_cons_self r t)
      have hlen : (sce.vadd acc r).length = lb.length := by
        simp only [sce.vadd, List.length_map, List.length_zip]
        rw [hacc, hrOK.1]
        omega
      have hres := ih (sce.vadd acc r) (m + 1) hlen ?_
        (fun s hs => hrows s (List.mem_cons_of_mem r hs)) i hi
      · rw [show m + (t.length + 1) = m + 1 + t.length from by omega]
        exact hres
      · intro j hj
        have h1 := hbounds j hj
        have h2 := hrOK.2 j (by rw [hrOK.1]; exact hj)
        rw [getD_vadd acc r j (by omega) (by rw [hrOK.1]; exact hj)]
        push_cast
        constructor
        · nlinarith [h1.1, h2.1]
        · nlinarith [h1.2, h2.2]

/-- The centroid of nonempty rows inside the box lies inside the box. -/
theorem centroid_rowOK (lb ub : List ℚ) (rows : List (List ℚ))
    (hne : rows ≠ []) (hrows : ∀ r ∈ rows, sce.rowOK lb ub r) :
    sce.rowOK lb ub (sce.centroid rows) := by
  rcases rows with _ | ⟨r, rest⟩
  · exact absurd rfl hne
  · have hrOK := hrows r (List.mem_cons_self r rest)
    have hrest : ∀ s ∈ rest, sce.rowOK lb ub s :=
      fun s hs => hrows s (List.mem_cons_of_mem r hs)
    have hflen : (rest.foldl sce.vadd r).length = lb.length :=
      foldl_vadd_length lb.length rest r hrOK.1 (fun s hs => (hrest s hs).1)
    have hbounds := foldl_vadd_bounds lb ub rest r 1 hrOK.1 ?_ hrest
    · unfold sce.centroid
      constructor
      · simp only [sce.smul, List.length_map]
        exact hflen
      · intro i hi
        simp only [sce.smul, List.length_map] at hi
        rw [hflen] at hi
        rw [getD_smul _ _ i (by rw [hflen]; exact hi)]
        have hb := hbounds i hi
        have hk : (0 : ℚ) < ((1 + rest.length : ℕ) : ℚ) := by
          push_cast; positivity
        rw [show ((rest.length + 1 : ℕ) : ℚ) = ((1 + rest.length : ℕ) : ℚ) by
          push_cast; ring]
        constructor
        · rw [div_mul_eq_mul_div, le_div_iff hk, one_mul]
          calc lb.getD i 0 * ((1 + rest.length : ℕ) : ℚ)
              = ((1 + rest.length : ℕ) : ℚ) * lb.getD i 0 := by ring
            _ ≤ _ := hb.1
        · rw [div_mul_eq_mul_div, div_le_iff hk, one_mul]
          calc (rest.foldl sce.vadd r).getD i 0 ≤
              ((1 + rest.length : ℕ) : ℚ) * ub.getD i 0 := hb.2
            _ = ub.getD i 0 * ((1 + rest.length : ℕ) : ℚ) := by ring
    · intro i hi
      have := hrOK.2 i (by rw [hrOK.1]; exact hi)
      simpa using this

/-- The component of a fold over replicated rows. -/
theorem foldl_vadd_replicate (v : List ℚ) :
    ∀ (m : ℕ) (acc : List ℚ), acc.length = v.length →
      ∀ i < v.length,
        ((List.replicate m v).foldl sce.vadd acc).getD i 0 =
          acc.getD i 0 + (m : ℚ) * v.getD i 0 := by
  intro m
  induction m with
  | zero => intro acc _ i _; simp
  | succ k ih =>
      intro acc hacc i hi
      simp only [List.replicate_succ, List.foldl_cons]
      have hlen : (sce.vadd acc v).length = v.length := by
        simp only [sce.vadd, List.length_map, List.length_zip]
        omega
      rw [ih (sce.vadd acc v) hlen i hi,
        getD_vadd acc v i (by omega) hi]
      push_cast
      ring

/-- The centroid of m >= 1 copies of a row is the row. -/
theorem centroid_replicate (v : List ℚ) (m : ℕ) (hm : 1 ≤ m) :
    sce.centroid (List.replicate m v) = v := by
  rcases m with _ | k
  · omega
  · rw [List.replicate_succ]
    unfold sce.centroid
    have hflen : ((List.replicate k v).foldl sce.vadd v).length = v.length :=
      foldl_vadd_length v.length _ v rfl (by
        intro r hr; rw [List.eq_of_mem_replicate hr])
    apply List.ext_getElem
    · simp only [sce.smul, List.length_map]
      exact hflen
    · intro i h1 h2
      simp only [sce.smul, List.length_map] at h1
      rw [hflen] at h1
      rw [← List.getD_eq_getElem _ 0 (by
          simp only [sce.smul, List.length_map]
          rw [hflen]
          exact h1),
        ← List.getD_eq_getElem _ 0 h2]
      rw [getD_smul _ _ i (by rw [hflen]; exact h1)]
      rw [foldl_vadd_replicate v k v rfl i h1]
      simp only [List.length_replicate]
      have hk : ((k : ℚ) + 1) ≠ 0 := by positivity
      field_simp
      ring

/-- Reflecting a row through itself gives back the row. -/
theorem reflect_self (v : List ℚ) (c : ℚ) :
    sce.vadd v (sce.smul c (sce.vsub v v)) = v := by
  apply List.ext_getElem
  · simp only [sce.vadd, sce.smul, sce.vsub, List.length_map, List.length_zip]
    omega
  · intro i h1 h2
    have hv : i < v.length := h2
    rw [← List.getD_eq_getElem _ 0 h1, ← List.getD_eq_getElem _ 0 h2]
    have hsub : (sce.vsub v v).length = v.length := by
      simp [sce.vsub]
    rw [getD_vadd v _ i hv (by simp [sce.smul, hsub]; exact hv)]
    rw [getD_smul _ _ i (by rw [hsub]; exact hv)]
    rw [getD_vsub v v i hv hv]
    ring

/-- The contraction candidate worst + 1/2 (centroid - worst) stays in
the box. -/
theorem contraction_rowOK (lb ub sw ce : List ℚ)
    (hsw : sce.rowOK lb ub sw) (hce : sce.rowOK lb ub ce) (c : ℚ)
    (hc0 : 0 ≤ c) (hc1 : c ≤ 1) :
    sce.rowOK lb ub (sce.vadd sw (sce.smul c (sce.vsub ce sw))) := by
  have hlen : (sce.vadd sw (sce.smul c (sce.vsub ce sw))).length = lb.length := by
    simp only [sce.vadd, sce.smul, sce.vsub, List.length_map, List.length_zip]
    rw [hsw.1, hce.1]
    omega
  refine ⟨hlen, ?_⟩
  intro i hi
  rw [hlen] at hi
  have hiw : i < sw.length := by rw [hsw.1]; exact hi
  have hic : i < ce.length := by rw [hce.1]; exact hi
  rw [getD_vadd sw _ i hiw (by
      simp only [sce.smul, sce.vsub, List.length_map, List.length_zip]
      omega),
    getD_smul _ _ i (by
      simp only [sce.vsub, List.length_map, List.length_zip]
      omega),
    getD_vsub ce sw i hic hiw]
  have h1 := hsw.2 i hiw
  have h2 := hce.2 i hic
  constructor
  · nlinarith [h1.1, h1.2, h2.1, h2.2]
  · nlinarith [h1.1, h1.2, h2.1, h2.2]

/-- A reflection candidate that passes the bounds check lies in the
box. -/
theorem not_out_of_bounds_rowOK (lb ub snew : List ℚ)
    (hlen : snew.length = lb.length) (hub : ub.length = lb.length)
    (hoob : (((snew.zip lb).any (fun p => decide (p.1 < p.2))) ||
      ((snew.zip ub).any (fun p => decide (p.1 > p.2)))) = false) :
    sce.rowOK lb ub snew := by
  rw [Bool.or_eq_false_iff] at hoob
  refine ⟨hlen, ?_⟩
  intro i hi
  rw [hlen] at hi
  constructor
  · have := List.any_eq_false.mp hoob.1 (snew.getD i 0, lb.getD i 0) ?_
    · simpa using not_lt.mp (by simpa using this)
    · have hz : i < (snew.zip lb).length := by
        simp only [List.length_zip]
        omega
      have : (snew.zip lb)[i] = (snew.getD i 0, lb.getD i 0) := by
        rw [List.getElem_zip]
        rw [List.getD_eq_getElem _ 0 (by omega), List.getD_eq_getElem _ 0 hi]
      rw [← this]
      exact List.getElem_mem hz
  · have := List.any_eq_false.mp hoob.2 (snew.getD i 0, ub.getD i 0) ?_
    · simpa using not_lt.mp (by simpa using this)
    · have hz : i < (snew.zip ub).length := by
        simp only [List.length_zip]
        omega
      have : (snew.zip ub)[i] = (snew.getD i 0, ub.getD i 0) := by
        rw [List.getElem_zip]
        rw [List.getD_eq_getElem _ 0 (by omega),
          List.getD_eq_getElem _ 0 (by omega)]
      rw [← this]
      exact List.getElem_mem hz

/-! ## Write-back lemmas -/

/-- Setting a position to its own value is the identity. -/
theorem set_getD_self {α : Type _} (l : List α) (d : α) (i : ℕ) :
    l.set i (l.getD i d) = l := by
  apply List.ext_getElem
  · simp
  · intro j h1 h2
    rw [List.getElem_set]
    split
    · rename_i hij
      subst hij
      rw [List.getD_eq_getElem _ _ h2]
    · rfl

/-- The write-back fold of `evolveIteration`: every slot except the
last writes back the value it read, so the fold is a single set at the
last selected index. -/
theorem foldl_set_restore {α : Type _} (d : α) :
    ∀ (indices : List ℕ) (cx : List α) (w : α) (hne : indices ≠ []),
      ((indices.zip ((indices.map (fun i => cx.getD i d)).dropLast ++
          [w])).foldl (fun acc p => acc.set p.1 p.2) cx) =
        cx.set (indices.getLast hne) w := by
  intro indices
  induction indices with
  | nil => intro cx w hne; exact absurd rfl hne
  | cons i rest ih =>
      intro cx w hne
      rcases rest with _ | ⟨j, rest2⟩
      · simp
      · have hrne : (j :: rest2) ≠ [] := by simp
        have hmap : ((i :: j :: rest2).map (fun k => cx.getD k d)).dropLast ++
            [w] = cx.getD i d ::
              (((j :: rest2).map (fun k => cx.getD k d)).dropLast ++ [w]) := by
          simp [List.dropLast_cons₂]
        rw [hmap]
        simp only [List.zip_cons_cons, List.foldl_cons]
        rw [set_getD_self cx d i]
        rw [ih cx w hrne]
        rw [List.getLast_cons hrne]

/-- In an ascending-sorted index list every element is at most the
last. -/
theorem sorted_le_getLast (l : List ℕ)
    (hs : l.Pairwise (fun a b => a ≤ b)) (hne : l ≠ []) :
    ∀ x ∈ l, x ≤ l.getLast hne := by
  intro x hx
  rcases List.mem_iff_getElem.mp hx with ⟨i, hi, rfl⟩
  rw [List.getLast_eq_getElem]
  rcases Nat.lt_or_ge i (l.length - 1) with h | h
  · exact List.pairwise_iff_getElem.mp hs i (l.length - 1) hi (by omega) h
  · have hieq : i = l.length - 1 := by omega
    subst hieq
    exact le_refl _

/-- A list whose members all equal a maps to a replicated list. -/
theorem map_eq_replicate_of_all_eq {α β : Type _} (f : α → β) (a : α) :
    ∀ (l : List α), (∀ x ∈ l, x = a) →
      l.map f = List.replicate l.length (f a) := by
  intro l
  induction l with
  | nil => intro _; rfl
  | cons b t ih =>
      intro h
      simp only [List.map_cons, List.length_cons, List.replicate_succ]
      rw [h b (List.mem_cons_self b t), ih (fun x hx => h x (List.mem_cons_of_mem b hx))]

/-- zip commutes with set at the same position on same-length lists. -/
theorem zip_set {α β : Type _} (a : List α) (b : List β) (i : ℕ)
    (x : α) (y : β) (hlen : b.length = a.length) :
    (a.set i x).zip (b.set i y) = (a.zip b).set i (x, y) := by
  apply List.ext_getElem
  · simp [List.length_zip, hlen]
  · intro j h1 h2
    rw [List.getElem_zip, List.getElem_set, List.getElem_set, List.getElem_set]
    by_cases hij : i = j
    · simp [hij]
    · simp only [hij, if_false]
      rw [List.getElem_zip]

end Hydro

namespace Hydro

/-- The draws of nextList lie in [0,1), have the requested length, and
keep the stream. -/
theorem nextList_range (rng : Rng) (n : ℕ) (hstream : sce.StreamOK rng.stream) :
    (rng.nextList n).1.length = n ∧
    (∀ i < (rng.nextList n).1.length, 0 ≤ (rng.nextList n).1.getD i 0 ∧
      (rng.nextList n).1.getD i 0 < 1) ∧
    (rng.nextList n).2.stream = rng.stream := by
  refine ⟨by simp [Rng.nextList], ?_, rfl⟩
  intro i hi
  simp only [Rng.nextList, List.length_map, List.length_range] at hi
  simp only [Rng.nextList]
  have hz : i < ((List.range n).map (fun i => rng.stream (rng.pos + i))).length := by
    simpa using hi
  rw [List.getD_eq_getElem _ _ hz]
  simp only [List.getElem_map, List.getElem_range]
  exact hstream _

/-- A point is never worse than itself. -/
theorem is_worse_self (im : Bool) (x : F) : sce.is_worse im x x = false := by
  cases im <;> simp [sce.is_worse, F.lt_irrefl]

/-- A row inside the box passes the bounds check. -/
theorem rowOK_not_oob (lb ub v : List ℚ) (h : sce.rowOK lb ub v)
    (hub : ub.length = lb.length) :
    (((v.zip lb).any (fun p => decide (p.1 < p.2))) ||
      ((v.zip ub).any (fun p => decide (p.1 > p.2)))) = false := by
  rw [Bool.or_eq_false_iff]
  constructor <;> rw [List.any_eq_false] <;> intro p hp <;>
    rcases List.mem_iff_getElem.mp hp with ⟨i, hi, rfl⟩ <;>
    simp only [List.length_zip] at hi <;>
    rw [List.getElem_zip] <;>
    simp only [decide_eq_true_eq, gt_iff_lt]
  · have hle := (h.2 i (by omega)).1
    rw [List.getD_eq_getElem _ _ (by omega : i < lb.length),
      List.getD_eq_getElem _ _ (by omega : i < v.length)] at hle
    exact not_lt.mpr hle
  · have hle := (h.2 i (by omega)).2
    rw [List.getD_eq_getElem _ _ (show i < ub.length by omega),
      List.getD_eq_getElem _ _ (by omega : i < v.length)] at hle
    exact not_lt.mpr hle

theorem evolve_complex_step_props
    {Data Meta Obs Sim ε : Type}
    (simulateF : List ℚ → Data → Meta → Except ε Sim)
    (evalSimF : Obs → Sim → Except ε (List F))
    (s : List (List ℚ)) (sf : List (List F)) (lb ub : List ℚ)
    (data : Data) (metadata : Meta) (observations : Obs)
    (oi : ℕ) (im : Bool) (rng : Rng)
    (hub : ub.length = lb.length)
    (hle : ∀ i < lb.length, lb.getD i 0 ≤ ub.getD i 0)
    (hs : ∀ r ∈ s, sce.rowOK lb ub r)
    (hslen : 2 ≤ s.length)
    (hstream : sce.StreamOK rng.stream) :
    ∀ ev rng2,
      sce.evolve_complex_step simulateF evalSimF s sf lb ub data metadata
        observations oi im rng = (.ok ev, rng2) →
      sce.rowOK lb ub ev.snew ∧
      sce.evalRow simulateF evalSimF data metadata observations ev.snew =
        .ok ev.fnew ∧
      rng2.stream = rng.stream := by
  intro ev rng2
  unfold sce.evolve_complex_step
  dsimp only
  -- facts about the worst row and the centroid
  have hne : s ≠ [] := by intro h; rw [h] at hslen; simp at hslen
  have hswmem : s.getLastD [] ∈ s := by
    rw [List.getLastD_eq_getLast? , List.getLast?_eq_getLast s hne]
    simp only [Option.getD_some]
    exact List.getLast_mem hne
  have hswOK := hs _ hswmem
  have hdne : s.dropLast ≠ [] := by
    intro h
    have := congrArg List.length h
    rw [List.length_dropLast] at this
    simp at this
    omega
  have hceOK : sce.rowOK lb ub (sce.centroid s.dropLast) :=
    centroid_rowOK lb ub s.dropLast hdne
      (fun r hr => hs r ((List.dropLast_sublist s).subset hr))
  have hsnew0len : (sce.vadd (sce.centroid s.dropLast)
      (sce.smul 1 (sce.vsub (sce.centroid s.dropLast) (s.getLastD [])))).length
      = lb.length := by
    simp only [sce.vadd, sce.smul, sce.vsub, List.length_map, List.length_zip]
    rw [hceOK.1, hswOK.1]
    omega
  cases hoob : (((sce.vadd (sce.centroid s.dropLast)
        (sce.smul 1 (sce.vsub (sce.centroid s.dropLast) (s.getLastD [])))).zip
          lb).any (fun p => decide (p.1 < p.2)) ||
      ((sce.vadd (sce.centroid s.dropLast)
        (sce.smul 1 (sce.vsub (sce.centroid s.dropLast) (s.getLastD [])))).zip
          ub).any (fun p => decide (p.1 > p.2))) with
  | false =>
      simp only [Bool.false_eq_true, if_false]
      have hreflOK : sce.rowOK lb ub (sce.vadd (sce.centroid s.dropLast)
          (sce.smul 1 (sce.vsub (sce.centroid s.dropLast) (s.getLastD [])))) :=
        not_out_of_bounds_rowOK lb ub _ hsnew0len hub hoob
      rcases hev1 : sce.evalRow simulateF evalSimF data metadata observations
          (sce.vadd (sce.centroid s.dropLast)
            (sce.smul 1 (sce.vsub (sce.centroid s.dropLast) (s.getLastD []))))
        with e | fnew
      · intro h; simp at h
      · dsimp only
        cases hw1 : sce.is_worse im (sce.objVal oi fnew)
            (sce.objVal oi (sf.getLastD [])) with
        | false =>
            simp only [Bool.false_eq_true, if_false]
            intro h
            rw [Prod.mk.injEq, Except.ok.injEq] at h
            rcases h with ⟨rfl, rfl⟩
            exact ⟨hreflOK, hev1, rfl⟩
        | true =>
            simp only [if_true]
            have hcontrOK := contraction_rowOK lb ub (s.getLastD [])
              (sce.centroid s.dropLast) hswOK hceOK (1/2) (by norm_num)
              (by norm_num)
            rcases hev2 : sce.evalRow simulateF evalSimF data metadata observations
                (sce.vadd (s.getLastD []) (sce.smul (1/2)
                  (sce.vsub (sce.centroid s.dropLast) (s.getLastD []))))
              with e | fnew2
            · intro h; simp at h
            · dsimp only
              cases hw2 : sce.is_worse im (sce.objVal oi fnew2)
                  (sce.objVal oi (sf.getLastD [])) with
              | false =>
                  simp only [Bool.false_eq_true, if_false]
                  intro h
                  rw [Prod.mk.injEq, Except.ok.injEq] at h
                  rcases h with ⟨rfl, rfl⟩
                  exact ⟨hcontrOK, hev2, rfl⟩
              | true =>
                  simp only [if_true]
                  have hnl2 := nextList_range rng (sce.vadd (s.getLastD [])
                    (sce.smul (1/2) (sce.vsub (sce.centroid s.dropLast)
                      (s.getLastD [])))).length hstream
                  have hdraw2OK : sce.rowOK lb ub (sce.scaleRow lb ub
                      (rng.nextList (sce.vadd (s.getLastD [])
                        (sce.smul (1/2) (sce.vsub (sce.centroid s.dropLast)
                          (s.getLastD [])))).length).1) :=
                    scaleRow_rowOK lb ub _ hub
                      (by rw [hnl2.1, hcontrOK.1]) hnl2.2.1 hle
                  rcases hev3 : sce.evalRow simulateF evalSimF data metadata
                      observations (sce.scaleRow lb ub
                        (rng.nextList (sce.vadd (s.getLastD [])
                          (sce.smul (1/2) (sce.vsub (sce.centroid s.dropLast)
                            (s.getLastD [])))).length).1)
                    with e | fnew3
                  · intro h; simp at h
                  · dsimp only
                    intro h
                    rw [Prod.mk.injEq, Except.ok.injEq] at h
                    rcases h with ⟨rfl, rfl⟩
                    exact ⟨hdraw2OK, hev3, rfl⟩
  | true =>
      simp only [if_true]
      have hnl := nextList_range rng (sce.vadd (sce.centroid s.dropLast)
        (sce.smul 1 (sce.vsub (sce.centroid s.dropLast)
          (s.getLastD [])))).length hstream
      have hdrawOK : sce.rowOK lb ub (sce.scaleRow lb ub
          (rng.nextList (sce.vadd (sce.centroid s.dropLast)
            (sce.smul 1 (sce.vsub (sce.centroid s.dropLast)
              (s.getLastD [])))).length).1) :=
        scaleRow_rowOK lb ub _ hub (by rw [hnl.1, hsnew0len]) hnl.2.1 hle
      rcases hev1 : sce.evalRow simulateF evalSimF data metadata observations
          (sce.scaleRow lb ub (rng.nextList (sce.vadd (sce.centroid s.dropLast)
            (sce.smul 1 (sce.vsub (sce.centroid s.dropLast)
              (s.getLastD [])))).length).1)
        with e | fnew
      · intro h; simp at h
      · dsimp only
        cases hw1 : sce.is_worse im (sce.objVal oi fnew)
            (sce.objVal oi (sf.getLastD [])) with
        | false =>
            simp only [Bool.false_eq_true, if_false]
            intro h
            rw [Prod.mk.injEq, Except.ok.injEq] at h
            rcases h with ⟨rfl, rfl⟩
            exact ⟨hdrawOK, hev1, rfl⟩
        | true =>
            simp only [if_true]
            have hcontrOK := contraction_rowOK lb ub (s.getLastD [])
              (sce.centroid s.dropLast) hswOK hceOK (1/2) (by norm_num)
              (by norm_num)
            rcases hev2 : sce.evalRow simulateF evalSimF data metadata observations
                (sce.vadd (s.getLastD []) (sce.smul (1/2)
                  (sce.vsub (sce.centroid s.dropLast) (s.getLastD []))))
              with e | fnew2
            · intro h; simp at h
            · dsimp only
              cases hw2 : sce.is_worse im (sce.objVal oi fnew2)
                  (sce.objVal oi (sf.getLastD [])) with
              | false =>
                  simp only [Bool.false_eq_true, if_false]
                  intro h
                  rw [Prod.mk.injEq, Except.ok.injEq] at h
                  rcases h with ⟨rfl, rfl⟩
                  exact ⟨hcontrOK, hev2, rfl⟩
              | true =>
                  simp only [if_true]
                  have hstreamA : sce.StreamOK ((rng.nextList
                      (sce.vadd (sce.centroid s.dropLast)
                        (sce.smul 1 (sce.vsub (sce.centroid s.dropLast)
                          (s.getLastD [])))).length).2).stream := hstream
                  have hnl2 := nextList_range ((rng.nextList
                      (sce.vadd (sce.centroid s.dropLast)
                        (sce.smul 1 (sce.vsub (sce.centroid s.dropLast)
                          (s.getLastD [])))).length).2)
                    (sce.vadd (s.getLastD [])
                      (sce.smul (1/2) (sce.vsub (sce.centroid s.dropLast)
                        (s.getLastD [])))).length hstreamA
                  have hdraw2OK : sce.rowOK lb ub (sce.scaleRow lb ub
                      (((rng.nextList (sce.vadd (sce.centroid s.dropLast)
                        (sce.smul 1 (sce.vsub (sce.centroid s.dropLast)
                          (s.getLastD [])))).length).2).nextList
                        (sce.vadd (s.getLastD [])
                          (sce.smul (1/2) (sce.vsub (sce.centroid s.dropLast)
                            (s.getLastD [])))).length).1) :=
                    scaleRow_rowOK lb ub _ hub
                      (by rw [hnl2.1, hcontrOK.1]) hnl2.2.1 hle
                  rcases hev3 : sce.evalRow simulateF evalSimF data metadata
                      observations (sce.scaleRow lb ub
                        (((rng.nextList (sce.vadd (sce.centroid s.dropLast)
                          (sce.smul 1 (sce.vsub (sce.centroid s.dropLast)
                            (s.getLastD [])))).length).2).nextList
                          (sce.vadd (s.getLastD [])
                            (sce.smul (1/2) (sce.vsub (sce.centroid s.dropLast)
                              (s.getLastD [])))).length).1)
                    with e | fnew3
                  · intro h; simp at h
                  · dsimp only
                    intro h
                    rw [Prod.mk.injEq, Except.ok.injEq] at h
                    rcases h with ⟨rfl, rfl⟩
                    exact ⟨hdraw2OK, hev3, rfl⟩

end Hydro

namespace Hydro

/-- The last element of a nonempty replicate. -/
theorem getLastD_replicate_succ {α : Type _} (n : ℕ) (v : α) :
    ∀ d, (List.replicate (n + 1) v).getLastD d = v := by
  induction n with
  | zero => intro d; rfl
  | succ m ih =>
      intro d
      rw [List.replicate_succ, List.getLastD_cons]
      exact ih v

/-- Dropping the last element of a replicate. -/
theorem dropLast_replicate_succ {α : Type _} (n : ℕ) (v : α) :
    (List.replicate (n + 1) v).dropLast = List.replicate n v := by
  rw [List.replicate_succ']
  exact List.dropLast_concat

/-- When the whole simplex is one repeated in-bounds point whose stored
objectives are its evaluation, the evolution step returns that very
point unchanged without consuming the generator: the reflection through
the point is the point itself, it is in bounds, and its objective ties
with the worst, so it is accepted. -/
theorem evolve_complex_step_degenerate
    {Data Meta Obs Sim ε : Type}
    (simulateF : List ℚ → Data → Meta → Except ε Sim)
    (evalSimF : Obs → Sim → Except ε (List F))
    (k : ℕ) (hk : 2 ≤ k) (v : List ℚ) (fv : List F) (lb ub : List ℚ)
    (data : Data) (metadata : Meta) (observations : Obs)
    (oi : ℕ) (im : Bool) (rng : Rng)
    (hub : ub.length = lb.length)
    (hv : sce.rowOK lb ub v)
    (heval : sce.evalRow simulateF evalSimF data metadata observations v =
      .ok fv) :
    sce.evolve_complex_step simulateF evalSimF (List.replicate k v)
      (List.replicate k fv) lb ub data metadata observations oi im rng =
      (.ok ⟨v, fv, 1⟩, rng) := by
  obtain ⟨m, rfl⟩ : ∃ m, k = m + 2 := ⟨k - 2, by omega⟩
  unfold sce.evolve_complex_step
  dsimp only
  have h1 : (List.replicate (m + 2) v).getLastD [] = v :=
    getLastD_replicate_succ (m + 1) v []
  have h1f : (List.replicate (m + 2) fv).getLastD [] = fv :=
    getLastD_replicate_succ (m + 1) fv []
  have h2 : (List.replicate (m + 2) v).dropLast = List.replicate (m + 1) v :=
    dropLast_replicate_succ (m + 1) v
  rw [h1, h1f, h2, centroid_replicate v (m + 1) (by omega), reflect_self v 1]
  rw [rowOK_not_oob lb ub v hv hub]
  simp only [Bool.false_eq_true, if_false]
  rw [heval]
  dsimp only
  rw [is_worse_self im (sce.objVal oi fv)]
  simp only [Bool.false_eq_true, if_false]

end Hydro

namespace Hydro

/-- Both outputs of `sort_population` have the length of the zipped
input. -/
theorem sort_population_length (p : List (List ℚ)) (o : List (List F))
    (oi : ℕ) (im : Bool) :
    (sce.sort_population p o oi im).1.length = (p.zip o).length ∧
    (sce.sort_population p o oi im).2.length = (p.zip o).length := by
  unfold sce.sort_population
  dsimp only
  constructor <;> rw [List.length_map, List.length_insertionSort]

/-- Every sorted parameter row comes from an input pair. -/
theorem sort_population_mem_fst (p : List (List ℚ)) (o : List (List F))
    (oi : ℕ) (im : Bool) (r : List ℚ)
    (hr : r ∈ (sce.sort_population p o oi im).1) :
    ∃ q ∈ p.zip o, q.1 = r := by
  unfold sce.sort_population at hr
  dsimp only at hr
  rcases List.mem_map.mp hr with ⟨q, hq, rfl⟩
  exact ⟨q, (List.perm_insertionSort _ _).mem_iff.mp hq, rfl⟩

/-- Every sorted pair is an input pair. -/
theorem sort_population_mem_pair (p : List (List ℚ)) (o : List (List F))
    (oi : ℕ) (im : Bool) (q : List ℚ × List F)
    (hq : q ∈ (sce.sort_population p o oi im).1.zip
      (sce.sort_population p o oi im).2) :
    q ∈ p.zip o :=
  (sort_population_perm p o oi im).mem_iff.mp hq

/-- getD at position 0 of a zip of nonempty lists. -/
theorem zip_getD_zero {α β : Type _} (a : List α) (b : List β) (d1 : α)
    (d2 : β) (ha : 0 < a.length) (hb : 0 < b.length) :
    (a.zip b).getD 0 (d1, d2) = (a.getD 0 d1, b.getD 0 d2) := by
  rcases a with _ | ⟨x, as⟩
  · simp at ha
  · rcases b with _ | ⟨y, bs⟩
    · simp at hb
    · rfl

theorem evolveIteration_props
    {Data Meta Obs Sim ε : Type}
    (simulateF : List ℚ → Data → Meta → Except ε Sim)
    (evalSimF : Obs → Sim → Except ε (List F))
    (lb ub : List ℚ) (data : Data) (metadata : Meta) (observations : Obs)
    (oi : ℕ) (im : Bool) (npc ns : ℕ) (c : sce.Complex) (rng : Rng)
    (hub : ub.length = lb.length)
    (hle : ∀ i < lb.length, lb.getD i 0 ≤ ub.getD i 0)
    (hnpc : 1 ≤ npc) (hns : 2 ≤ ns)
    (hc : CxOK simulateF evalSimF data metadata observations lb ub oi im npc c)
    (hstream : sce.StreamOK rng.stream) :
    ∀ c2 calls rng2,
      sce.evolveIteration simulateF evalSimF lb ub data metadata observations
        oi im npc ns c rng = (.ok (c2, calls), rng2) →
      CxOK simulateF evalSimF data metadata observations lb ub oi im npc c2 ∧
      sce.dirLe im (sce.objVal oi (c2.cf.getD 0 []))
        (sce.objVal oi (c.cf.getD 0 [])) = true ∧
      rng2.stream = rng.stream := by
  intro c2 calls rng2
  unfold sce.evolveIteration
  dsimp only
  rcases hir : sce.select_simplex_indices npc ns rng with ⟨indices, rngA⟩
  have hsel := select_simplex_indices_props npc ns hnpc (by omega) rng hstream
  rw [hir] at hsel
  dsimp only at hsel
  obtain ⟨hine, hilen, hibound, hisorted, histream⟩ := hsel
  dsimp only
  rcases hstep : sce.evolve_complex_step simulateF evalSimF
      (indices.map (fun i => c.cx.getD i []))
      (indices.map (fun i => c.cf.getD i [])) lb ub data metadata observations
      oi im rngA with ⟨res0, rngB⟩
  cases res0 with
  | error e =>
      dsimp only
      intro h
      simp at h
  | ok ev =>
      dsimp only
      have hstreamA : sce.StreamOK rngA.stream := by
        rw [histream]; exact hstream
      have hsrows : ∀ r ∈ indices.map (fun i => c.cx.getD i []),
          sce.rowOK lb ub r := by
        intro r hr
        rcases List.mem_map.mp hr with ⟨i, hi, rfl⟩
        have hib := hibound i hi
        have hilt : i < c.cx.length := by rw [hc.len_cx]; omega
        rw [List.getD_eq_getElem _ _ hilt]
        exact hc.rows _ (List.getElem_mem hilt)
      have hslen2 : 2 ≤ (indices.map (fun i => c.cx.getD i [])).length := by
        rw [List.length_map, hilen]; exact hns
      obtain ⟨hsnewOK, hsnewEval, hBstream⟩ := evolve_complex_step_props
        simulateF evalSimF (indices.map (fun i => c.cx.getD i []))
        (indices.map (fun i => c.cf.getD i [])) lb ub data metadata
        observations oi im rngA hub hle hsrows hslen2 hstreamA ev rngB hstep
      intro h
      rw [Prod.mk.injEq, Except.ok.injEq, Prod.mk.injEq] at h
      obtain ⟨⟨rfl, rfl⟩, rfl⟩ := h
      rw [foldl_set_restore ([] : List ℚ) indices c.cx ev.snew hine,
        foldl_set_restore ([] : List F) indices c.cf ev.fnew hine]
      have hilast_lt : indices.getLast hine < npc := by
        have := hibound _ (List.getLast_mem hine); omega
      have hzipset : (c.cx.set (indices.getLast hine) ev.snew).zip
          (c.cf.set (indices.getLast hine) ev.fnew) =
          (c.cx.zip c.cf).set (indices.getLast hine) (ev.snew, ev.fnew) :=
        zip_set c.cx c.cf _ ev.snew ev.fnew (by rw [hc.len_cf, hc.len_cx])
      have hziplen : (c.cx.zip c.cf).length = npc := by
        rw [List.length_zip, hc.len_cx, hc.len_cf, min_self]
      have hcx0lt : 0 < c.cx.length := by rw [hc.len_cx]; omega
      have hcf0lt : 0 < c.cf.length := by rw [hc.len_cf]; omega
      have hzip0 : (c.cx.zip c.cf).getD 0 ([], []) =
          (c.cx.getD 0 [], c.cf.getD 0 []) :=
        zip_getD_zero c.cx c.cf [] [] hcx0lt hcf0lt
      have holdpair_mem : (c.cx.getD 0 [], c.cf.getD 0 []) ∈ c.cx.zip c.cf := by
        rw [← hzip0, List.getD_eq_getElem _ _ (by omega : 0 < (c.cx.zip c.cf).length)]
        exact List.getElem_mem _
      have hsetlen : 0 < ((c.cx.zip c.cf).set (indices.getLast hine)
          (ev.snew, ev.fnew)).length := by
        rw [List.length_set]; omega
      have holdmem : (c.cx.getD 0 [], c.cf.getD 0 []) ∈
          (c.cx.zip c.cf).set (indices.getLast hine) (ev.snew, ev.fnew) := by
        by_cases h0 : indices.getLast hine = 0
        · -- degenerate simplex: the step returned the best point itself
          have hall : ∀ i ∈ indices, i = 0 := by
            intro i hi
            have := sorted_le_getLast indices hisorted hine i hi
            omega
          have hsrep : indices.map (fun i => c.cx.getD i []) =
              List.replicate ns (c.cx.getD 0 []) := by
            rw [map_eq_replicate_of_all_eq (fun i => c.cx.getD i []) 0 indices
              hall, hilen]
          have hsfrep : indices.map (fun i => c.cf.getD i []) =
              List.replicate ns (c.cf.getD 0 []) := by
            rw [map_eq_replicate_of_all_eq (fun i => c.cf.getD i []) 0 indices
              hall, hilen]
          have hv : sce.rowOK lb ub (c.cx.getD 0 []) := by
            rw [List.getD_eq_getElem _ _ hcx0lt]
            exact hc.rows _ (List.getElem_mem hcx0lt)
          have hevalv := hc.cons _ holdpair_mem
          have hdeg := evolve_complex_step_degenerate simulateF evalSimF ns hns
            (c.cx.getD 0 []) (c.cf.getD 0 []) lb ub data metadata observations
            oi im rngA hub hv hevalv
          rw [hsrep, hsfrep, hdeg] at hstep
          rw [Prod.mk.injEq, Except.ok.injEq] at hstep
          obtain ⟨hev, hrngB⟩ := hstep
          have hpair : (ev.snew, ev.fnew) =
              (c.cx.getD 0 [], c.cf.getD 0 []) := by
            rw [← hev]
          rw [h0, hpair]
          have hL : 0 < ((c.cx.zip c.cf).set 0
              (c.cx.getD 0 [], c.cf.getD 0 [])).length := by
            rw [List.length_set]; omega
          have hEl : ((c.cx.zip c.cf).set 0
              (c.cx.getD 0 [], c.cf.getD 0 []))[0] =
              (c.cx.getD 0 [], c.cf.getD 0 []) := by
            rw [List.getElem_set]
            simp
          exact List.mem_iff_getElem.mpr ⟨0, hL, hEl⟩
        · -- the write went to a later slot: position 0 is unchanged
          have hEl : ((c.cx.zip c.cf).set (indices.getLast hine)
              (ev.snew, ev.fnew))[0] =
              (c.cx.getD 0 [], c.cf.getD 0 []) := by
            rw [List.getElem_set, if_neg h0, ← hzip0,
              List.getD_eq_getElem _ _ (by omega : 0 < (c.cx.zip c.cf).length)]
          exact List.mem_iff_getElem.mpr ⟨0, hsetlen, hEl⟩
      refine ⟨⟨?_, ?_, ?_, ?_, ?_⟩, ?_, ?_⟩
      · dsimp only
        rw [(sort_population_length _ _ oi im).1, hzipset, List.length_set,
          hziplen]
      · dsimp only
        rw [(sort_population_length _ _ oi im).2, hzipset, List.length_set,
          hziplen]
      · dsimp only
        intro r hr
        rcases sort_population_mem_fst _ _ oi im r hr with ⟨q, hq, rfl⟩
        rw [hzipset] at hq
        rcases List.mem_or_eq_of_mem_set hq with hold | rfl
        · exact hc.rows _ (List.of_mem_zip hold).1
        · exact hsnewOK
      · dsimp only
        exact sort_population_sorted _ _ oi im
      · dsimp only
        intro q hq
        have hq2 := sort_population_mem_pair _ _ oi im q hq
        rw [hzipset] at hq2
        rcases List.mem_or_eq_of_mem_set hq2 with hold | rfl
        · exact hc.cons _ hold
        · exact hsnewEval
      · dsimp only
        have hmin := sort_population_head_min
          (c.cx.set (indices.getLast hine) ev.snew)
          (c.cf.set (indices.getLast hine) ev.fnew) oi im ([], [])
          (c.cx.getD 0 [], c.cf.getD 0 [])
          (by rw [hzipset]; exact holdmem)
        rw [zip_getD_zero _ _ [] [] (by
            rw [(sort_population_length _ _ oi im).1, hzipset, List.length_set,
              hziplen]
            omega) (by
            rw [(sort_population_length _ _ oi im).2, hzipset, List.length_set,
              hziplen]
            omega)] at hmin
        exact hmin
      · rw [hBstream, histream]

end Hydro

namespace Hydro

theorem evolveComplexLoop_props
    {Data Meta Obs Sim ε : Type}
    (simulateF : List ℚ → Data → Meta → Except ε Sim)
    (evalSimF : Obs → Sim → Except ε (List F))
    (lb ub : List ℚ) (data : Data) (metadata : Meta) (observations : Obs)
    (oi : ℕ) (im : Bool) (npc ns : ℕ)
    (hub : ub.length = lb.length)
    (hle : ∀ i < lb.length, lb.getD i 0 ≤ ub.getD i 0)
    (hnpc : 1 ≤ npc) (hns : 2 ≤ ns) :
    ∀ (steps : ℕ) (c : sce.Complex) (n_calls : ℕ) (rng : Rng),
      CxOK simulateF evalSimF data metadata observations lb ub oi im npc c →
      sce.StreamOK rng.stream →
      ∀ r rng2, sce.evolveComplexLoop simulateF evalSimF lb ub data metadata
          observations oi im npc ns steps c n_calls rng = (.ok r, rng2) →
        CxOK simulateF evalSimF data metadata observations lb ub oi im npc
          r.1 ∧
        sce.dirLe im (sce.objVal oi (r.1.cf.getD 0 []))
          (sce.objVal oi (c.cf.getD 0 [])) = true ∧
        rng2.stream = rng.stream := by
  intro steps
  induction steps with
  | zero =>
      intro c n_calls rng hc hstream r rng2 h
      unfold sce.evolveComplexLoop at h
      rw [Prod.mk.injEq, Except.ok.injEq] at h
      obtain ⟨rfl, rfl⟩ := h
      exact ⟨hc, dirLe_refl im _, rfl⟩
  | succ m ih =>
      intro c n_calls rng hc hstream r rng2 h
      unfold sce.evolveComplexLoop at h
      rcases hit : sce.evolveIteration simulateF evalSimF lb ub data metadata
        observations oi im npc ns c rng with ⟨r0, rngA⟩
      rw [hit] at h
      cases r0 with
      | error e =>
          dsimp only at h
          simp at h
      | ok it =>
          dsimp only at h
          obtain ⟨hcx2, hmono, hstreamA⟩ := evolveIteration_props simulateF
            evalSimF lb ub data metadata observations oi im npc ns c rng hub
            hle hnpc hns hc hstream it.1 it.2 rngA (by rw [hit])
          have hstreamA2 : sce.StreamOK rngA.stream := by
            rw [hstreamA]; exact hstream
          obtain ⟨hcr, hmono2, hstream2⟩ := ih it.1 (n_calls + it.2) rngA hcx2
            hstreamA2 r rng2 h
          exact ⟨hcr, dirLe_trans im hmono2 hmono, by rw [hstream2, hstreamA]⟩

theorem evolve_complexes_props
    {Data Meta Obs Sim ε : Type}
    (simulateF : List ℚ → Data → Meta → Except ε Sim)
    (evalSimF : Obs → Sim → Except ε (List F))
    (lb ub : List ℚ) (data : Data) (metadata : Meta) (observations : Obs)
    (oi : ℕ) (im : Bool) (npc ns nes : ℕ)
    (hub : ub.length = lb.length)
    (hle : ∀ i < lb.length, lb.getD i 0 ≤ ub.getD i 0)
    (hnpc : 1 ≤ npc) (hns : 2 ≤ ns) :
    ∀ (cs : List sce.Complex) (n_calls : ℕ) (rng : Rng),
      (∀ c ∈ cs, CxOK simulateF evalSimF data metadata observations lb ub oi
        im npc c) →
      sce.StreamOK rng.stream →
      ∀ r rng2, sce.evolve_complexes simulateF evalSimF lb ub data metadata
          observations oi im npc ns nes cs n_calls rng = (.ok r, rng2) →
        List.Forall₂ (fun c c2 =>
          CxOK simulateF evalSimF data metadata observations lb ub oi im npc
            c2 ∧
          sce.dirLe im (sce.objVal oi (c2.cf.getD 0 []))
            (sce.objVal oi (c.cf.getD 0 [])) = true) cs r.1 ∧
        rng2.stream = rng.stream := by
  intro cs
  induction cs with
  | nil =>
      intro n_calls rng hcs hstream r rng2 h
      unfold sce.evolve_complexes at h
      rw [Prod.mk.injEq, Except.ok.injEq] at h
      obtain ⟨rfl, rfl⟩ := h
      exact ⟨List.Forall₂.nil, rfl⟩
  | cons c rest ih =>
      intro n_calls rng hcs hstream r rng2 h
      unfold sce.evolve_complexes at h
      rcases hloop : sce.evolveComplexLoop simulateF evalSimF lb ub data
        metadata observations oi im npc ns nes c n_calls rng with ⟨r0, rngA⟩
      rw [hloop] at h
      cases r0 with
      | error e =>
          dsimp only at h
          simp at h
      | ok lr =>
          dsimp only at h
          obtain ⟨hc2, hmono, hstreamA⟩ := evolveComplexLoop_props simulateF
            evalSimF lb ub data metadata observations oi im npc ns hub hle
            hnpc hns nes c n_calls rng (hcs c (List.mem_cons_self c rest))
            hstream lr rngA (by rw [hloop])
          have hstreamA2 : sce.StreamOK rngA.stream := by
            rw [hstreamA]; exact hstream
          rcases hrest : sce.evolve_complexes simulateF evalSimF lb ub data
            metadata observations oi im npc ns nes rest lr.2 rngA
            with ⟨r1, rngB⟩
          rw [hrest] at h
          cases r1 with
          | error e =>
              dsimp only at h
              simp at h
          | ok rr =>
              dsimp only at h
              obtain ⟨hf2, hstreamB⟩ := ih lr.2 rngA
                (fun d hd => hcs d (List.mem_cons_of_mem _ hd)) hstreamA2 rr
                rngB (by rw [hrest])
              rw [Prod.mk.injEq, Except.ok.injEq] at h
              obtain ⟨rfl, rfl⟩ := h
              exact ⟨List.Forall₂.cons ⟨hc2, hmono⟩ hf2,
                by rw [hstreamB, hstreamA]⟩

end Hydro

namespace Hydro

theorem partition_props
    {Data Meta Obs Sim ε : Type}
    (simulateF : List ℚ → Data → Meta → Except ε Sim)
    (evalSimF : Obs → Sim → Except ε (List F))
    (data : Data) (metadata : Meta) (observations : Obs)
    (lb ub : List ℚ) (oi : ℕ) (im : Bool) (nc npc : ℕ)
    (p : List (List ℚ)) (o : List (List F))
    (hnc : 1 ≤ nc) (hnpc : 1 ≤ npc)
    (hplen : p.length = nc * npc)
    (holen : o.length = p.length)
    (hrows : ∀ r ∈ p, sce.rowOK lb ub r)
    (hsorted : (p.zip o).Pairwise (pairRel oi im))
    (hcons : ∀ q ∈ p.zip o,
      sce.evalRow simulateF evalSimF data metadata observations q.1 =
        .ok q.2) :
    (sce.partition_into_complexes p o nc).length = nc ∧
    (∀ c ∈ sce.partition_into_complexes p o nc,
      CxOK simulateF evalSimF data metadata observations lb ub oi im npc c) ∧
    ((sce.partition_into_complexes p o nc).getD 0 ⟨[], []⟩).cx.getD 0 []
      = p.getD 0 [] ∧
    ((sce.partition_into_complexes p o nc).getD 0 ⟨[], []⟩).cf.getD 0 []
      = o.getD 0 [] := by
  obtain ⟨m, rfl⟩ : ∃ m, nc = m + 1 := ⟨nc - 1, by omega⟩
  obtain ⟨k, rfl⟩ : ∃ k, npc = k + 1 := ⟨npc - 1, by omega⟩
  have hdiv : p.length / (m + 1) = k + 1 := by
    rw [hplen]; exact Nat.mul_div_cancel_left (k + 1) hnc
  have hziplen : (p.zip o).length = p.length := by
    rw [List.length_zip, holen, min_self]
  have hidx : ∀ j igs, j < (k + 1) → igs < (m + 1) → j * (m + 1) + igs < p.length := by
    intro j igs hj higs
    have e1 : (j + 1) * (m + 1) = j * (m + 1) + (m + 1) := Nat.succ_mul j (m + 1)
    have e2 : (j + 1) * (m + 1) ≤ (k + 1) * (m + 1) :=
      Nat.mul_le_mul_right (m + 1) (by omega)
    have e3 : (k + 1) * (m + 1) = (m + 1) * (k + 1) := Nat.mul_comm (k + 1) (m + 1)
    omega
  have hpair : ∀ i, i < p.length →
      (p.getD i [], o.getD i []) = (p.zip o).getD i ([], []) := by
    intro i hi
    rw [List.getD_eq_getElem _ _ (by omega : i < (p.zip o).length),
      List.getElem_zip,
      List.getD_eq_getElem _ _ hi,
      List.getD_eq_getElem _ _ (by omega : i < o.length)]
  have hmem_pair : ∀ i, i < p.length →
      (p.getD i [], o.getD i []) ∈ p.zip o := by
    intro i hi
    rw [hpair i hi,
      List.getD_eq_getElem _ _ (by omega : i < (p.zip o).length)]
    exact List.getElem_mem (by omega)
  refine ⟨?_, ?_, ?_, ?_⟩
  · unfold sce.partition_into_complexes
    dsimp only
    rw [List.length_map, List.length_range]
  · intro c hc
    unfold sce.partition_into_complexes at hc
    dsimp only at hc
    rcases List.mem_map.mp hc with ⟨igs, higs, rfl⟩
    rw [List.mem_range] at higs
    rw [hdiv]
    refine ⟨?_, ?_, ?_, ?_, ?_⟩
    · rw [List.length_map, List.length_map, List.length_range]
    · rw [List.length_map, List.length_map, List.length_range]
    · intro r hr
      rcases List.mem_map.mp hr with ⟨i, hi, rfl⟩
      rcases List.mem_map.mp hi with ⟨j, hj, rfl⟩
      rw [List.mem_range] at hj
      have hlt := hidx j igs hj higs
      rw [List.getD_eq_getElem _ _ hlt]
      exact hrows _ (List.getElem_mem hlt)
    · rw [List.zip_map']
      rw [List.pairwise_iff_getElem]
      intro a b ha hb hab
      simp only [List.length_map, List.length_range] at ha hb
      simp only [List.getElem_map, List.getElem_range]
      have hia := hidx a igs ha higs
      have hib := hidx b igs hb higs
      have hlt : a * (m + 1) + igs < b * (m + 1) + igs := by
        have := (Nat.mul_lt_mul_right (by omega : 0 < (m + 1))).mpr hab
        omega
      have hz := List.pairwise_iff_getElem.mp hsorted (a * (m + 1) + igs)
        (b * (m + 1) + igs) (by omega) (by omega) hlt
      rw [hpair _ hia, hpair _ hib,
        List.getD_eq_getElem _ _ (by omega : a * (m + 1) + igs < (p.zip o).length),
        List.getD_eq_getElem _ _ (by omega : b * (m + 1) + igs < (p.zip o).length)]
      exact hz
    · intro q hq
      rw [List.zip_map'] at hq
      rcases List.mem_map.mp hq with ⟨i, hi, rfl⟩
      rcases List.mem_map.mp hi with ⟨j, hj, rfl⟩
      rw [List.mem_range] at hj
      have hlt := hidx j igs hj higs
      exact hcons _ (hmem_pair _ hlt)
  · unfold sce.partition_into_complexes
    dsimp only
    rw [hdiv]
    simp [List.getD_eq_getElem?_getD, List.getElem?_map, List.getElem?_range]
  · unfold sce.partition_into_complexes
    dsimp only
    rw [hdiv]
    simp [List.getD_eq_getElem?_getD, List.getElem?_map, List.getElem?_range]

end Hydro

namespace Hydro

/-- Length of a flatten of uniformly sized chunks. -/
theorem flatten_length_uniform {α : Type _} (ls : List (List α)) (npc : ℕ)
    (h : ∀ l ∈ ls, l.length = npc) : ls.flatten.length = ls.length * npc := by
  induction ls with
  | nil => simp
  | cons l rest ih =>
      simp only [List.flatten_cons, List.length_append, List.length_cons]
      rw [h l (List.mem_cons_self l rest),
        ih (fun d hd => h d (List.mem_cons_of_mem _ hd))]
      ring

/-- Zipping the flattened parameter and objective tables of complexes
with matching row counts flattens the per-complex zips. -/
theorem flatten_zip_eq (cs : List sce.Complex)
    (h : ∀ c ∈ cs, c.cx.length = c.cf.length) :
    ((cs.map sce.Complex.cx).flatten).zip ((cs.map sce.Complex.cf).flatten) =
      (cs.map (fun c => c.cx.zip c.cf)).flatten := by
  induction cs with
  | nil => rfl
  | cons c rest ih =>
      simp only [List.map_cons, List.flatten_cons]
      rw [List.zip_append (h c (List.mem_cons_self c rest)),
        ih (fun d hd => h d (List.mem_cons_of_mem _ hd))]

theorem merge_props (cs : List sce.Complex) (oi : ℕ) (im : Bool) (npc : ℕ)
    (hlen : ∀ c ∈ cs, c.cx.length = npc ∧ c.cf.length = npc)
    (hne : cs ≠ []) (hnpc : 1 ≤ npc) :
    (sce.merge_complexes cs oi im).1.length = cs.length * npc ∧
    (sce.merge_complexes cs oi im).2.length = cs.length * npc ∧
    (∀ q ∈ (sce.merge_complexes cs oi im).1.zip
        (sce.merge_complexes cs oi im).2,
      ∃ c ∈ cs, q ∈ c.cx.zip c.cf) ∧
    ((sce.merge_complexes cs oi im).1.zip
      (sce.merge_complexes cs oi im).2).Pairwise (pairRel oi im) ∧
    (∀ r ∈ (sce.merge_complexes cs oi im).1, ∃ c ∈ cs, r ∈ c.cx) ∧
    pairRel oi im
      ((sce.merge_complexes cs oi im).1.getD 0 [],
       (sce.merge_complexes cs oi im).2.getD 0 [])
      ((cs.getD 0 ⟨[], []⟩).cx.getD 0 [],
       (cs.getD 0 ⟨[], []⟩).cf.getD 0 []) := by
  have hlcx : (cs.map sce.Complex.cx).flatten.length = cs.length * npc := by
    rw [flatten_length_uniform _ npc (by
      intro l hl
      rcases List.mem_map.mp hl with ⟨c, hc, rfl⟩
      exact (hlen c hc).1), List.length_map]
  have hlcf : (cs.map sce.Complex.cf).flatten.length = cs.length * npc := by
    rw [flatten_length_uniform _ npc (by
      intro l hl
      rcases List.mem_map.mp hl with ⟨c, hc, rfl⟩
      exact (hlen c hc).2), List.length_map]
  have hzipflat := flatten_zip_eq cs (fun c hc => by
    rw [(hlen c hc).1, (hlen c hc).2])
  have hzlen : ((cs.map sce.Complex.cx).flatten.zip
      (cs.map sce.Complex.cf).flatten).length = cs.length * npc := by
    rw [List.length_zip, hlcx, hlcf, min_self]
  have hcslen : 1 ≤ cs.length := by
    rcases cs with _ | ⟨c, rest⟩
    · exact absurd rfl hne
    · simp
  have hm1 : (sce.merge_complexes cs oi im).1.length = cs.length * npc := by
    unfold sce.merge_complexes
    rw [(sort_population_length _ _ oi im).1, hzlen]
  have hm2 : (sce.merge_complexes cs oi im).2.length = cs.length * npc := by
    unfold sce.merge_complexes
    rw [(sort_population_length _ _ oi im).2, hzlen]
  refine ⟨hm1, hm2, ?_, ?_, ?_, ?_⟩
  · intro q hq
    unfold sce.merge_complexes at hq
    have hq2 := sort_population_mem_pair _ _ oi im q hq
    rw [hzipflat] at hq2
    rcases List.mem_flatten.mp hq2 with ⟨l, hl, hql⟩
    rcases List.mem_map.mp hl with ⟨c, hc, rfl⟩
    exact ⟨c, hc, hql⟩
  · unfold sce.merge_complexes
    exact sort_population_sorted _ _ oi im
  · intro r hr
    unfold sce.merge_complexes at hr
    rcases sort_population_mem_fst _ _ oi im r hr with ⟨q, hq, rfl⟩
    rw [hzipflat] at hq
    rcases List.mem_flatten.mp hq with ⟨l, hl, hql⟩
    rcases List.mem_map.mp hl with ⟨c, hc, rfl⟩
    exact ⟨c, hc, (List.of_mem_zip hql).1⟩
  · have hc0 : cs.getD 0 ⟨[], []⟩ ∈ cs := by
      rw [List.getD_eq_getElem _ _ (by omega : 0 < cs.length)]
      exact List.getElem_mem (by omega)
    have hc0cx : 0 < (cs.getD 0 ⟨[], []⟩).cx.length := by
      rw [(hlen _ hc0).1]; omega
    have hc0cf : 0 < (cs.getD 0 ⟨[], []⟩).cf.length := by
      rw [(hlen _ hc0).2]; omega
    have hp0mem : ((cs.getD 0 ⟨[], []⟩).cx.getD 0 [],
        (cs.getD 0 ⟨[], []⟩).cf.getD 0 []) ∈
        (cs.getD 0 ⟨[], []⟩).cx.zip (cs.getD 0 ⟨[], []⟩).cf := by
      have hz : 0 < ((cs.getD 0 ⟨[], []⟩).cx.zip
          (cs.getD 0 ⟨[], []⟩).cf).length := by
        rw [List.length_zip]; omega
      have hEl : ((cs.getD 0 ⟨[], []⟩).cx.zip
          (cs.getD 0 ⟨[], []⟩).cf)[0] =
          ((cs.getD 0 ⟨[], []⟩).cx.getD 0 [],
           (cs.getD 0 ⟨[], []⟩).cf.getD 0 []) := by
        rw [List.getElem_zip, List.getD_eq_getElem _ _ hc0cx,
          List.getD_eq_getElem _ _ hc0cf]
      exact List.mem_iff_getElem.mpr ⟨0, hz, hEl⟩
    have hmemflat : ((cs.getD 0 ⟨[], []⟩).cx.getD 0 [],
        (cs.getD 0 ⟨[], []⟩).cf.getD 0 []) ∈
        ((cs.map sce.Complex.cx).flatten).zip
          ((cs.map sce.Complex.cf).flatten) := by
      rw [hzipflat]
      exact List.mem_flatten.mpr ⟨_, List.mem_map.mpr ⟨_, hc0, rfl⟩, hp0mem⟩
    have hmin := sort_population_head_min ((cs.map sce.Complex.cx).flatten)
      ((cs.map sce.Complex.cf).flatten) oi im ([], []) _ hmemflat
    unfold sce.merge_complexes
    rw [zip_getD_zero _ _ [] [] (by
        rw [(sort_population_length _ _ oi im).1, hzlen]
        exact Nat.le_trans hnpc (by nlinarith)) (by
        rw [(sort_population_length _ _ oi im).2, hzlen]
        exact Nat.le_trans hnpc (by nlinarith))] at hmin
    exact hmin

end Hydro

namespace Hydro

/-- Binding an error in `Except` short-circuits. -/
theorem except_bind_err {β γ δ : Type _} (g : β → Except γ δ) (e : γ) :
    ((Except.error e : Except γ β) >>= g) = Except.error e := rfl

/-- Binding a success in `Except` applies the continuation. -/
theorem except_bind_ok {β γ δ : Type _} (g : β → Except γ δ) (y : β) :
    ((Except.ok y : Except γ β) >>= g) = g y := rfl

/-- `pure` in `Except` is `ok`. -/
theorem except_pure {γ δ : Type _} (x : δ) :
    (pure x : Except γ δ) = Except.ok x := rfl

/-- A successful `mapM` over `Except` evaluates every element. -/
theorem mapM_ok_forall₂ {α β γ : Type _} (f : α → Except γ β) :
    ∀ (l : List α) (ys : List β), l.mapM f = .ok ys →
      List.Forall₂ (fun x y => f x = .ok y) l ys := by
  intro l
  induction l with
  | nil =>
      intro ys h
      simp only [List.mapM_nil, except_pure, Except.ok.injEq] at h
      rw [← h]
      exact List.Forall₂.nil
  | cons a t ih =>
      intro ys h
      rw [List.mapM_cons] at h
      rcases hfa : f a with e | y
      · rw [hfa, except_bind_err] at h
        exact absurd h (by simp)
      · rw [hfa, except_bind_ok] at h
        rcases hts : t.mapM f with e | zs
        · rw [hts, except_bind_err] at h
          exact absurd h (by simp)
        · rw [hts, except_bind_ok] at h
          rw [except_pure, Except.ok.injEq] at h
          rw [← h]
          exact List.Forall₂.cons hfa (ih zs hts)

/-- Every member on the right of a `Forall₂` is related to a member on
the left. -/
theorem forall₂_mem_right {α β : Type _} {R : α → β → Prop} :
    ∀ {l₁ : List α} {l₂ : List β}, List.Forall₂ R l₁ l₂ →
      ∀ b ∈ l₂, ∃ a ∈ l₁, R a b := by
  intro l₁ l₂ h
  induction h with
  | nil => intro b hb; simp at hb
  | cons hab _ ih =>
      intro b hb
      rcases List.mem_cons.mp hb with rfl | hb2
      · exact ⟨_, List.mem_cons_self _ _, hab⟩
      · rcases ih b hb2 with ⟨a, ha, hr⟩
        exact ⟨a, List.mem_cons_of_mem _ ha, hr⟩

/-- A `Forall₂` on nonempty lists relates the heads. -/
theorem forall₂_getD_zero {α β : Type _} {R : α → β → Prop}
    {l₁ : List α} {l₂ : List β} (h : List.Forall₂ R l₁ l₂)
    (hne : l₁ ≠ []) (d₁ : α) (d₂ : β) :
    R (l₁.getD 0 d₁) (l₂.getD 0 d₂) := by
  cases h with
  | nil => exact absurd rfl hne
  | cons hab _ => exact hab

/-- The generated initial population has the requested number of
rows. -/
theorem generate_initial_population_length (size : ℕ) (lb ub : List ℚ)
    (rng : Rng) :
    (sce.generate_initial_population size lb ub rng).1.length = size := by
  unfold sce.generate_initial_population
  dsimp only
  rw [List.length_set, List.length_map, List.length_map, List.length_range]

theorem init_establishes
    {Data Meta Obs Sim ε : Type}
    (simulateF : List ℚ → Data → Meta → Except ε Sim)
    (evalSimF : Obs → Sim → Except ε (List F))
    (cfg : sce.SceConfig) (data : Data) (metadata : Meta)
    (observations : Obs) (st : sce.SceState)
    (hcfg : sce.CfgOK cfg)
    (hstream : sce.StreamOK st.rng.stream)
    (hplen : st.population.length = cfg.population_size) :
    ∀ st2, sce.init simulateF evalSimF cfg data metadata observations st =
        (st2, .ok ()) →
      sce.WF simulateF evalSimF cfg data metadata observations st2 ∧
      st2.rng.stream = st.rng.stream := by
  intro st2 h
  unfold sce.init at h
  dsimp only at h
  rcases heval : sce.evaluate_initial_population simulateF evalSimF data
      metadata observations
      (sce.generate_initial_population st.population.length cfg.lower_bounds
        cfg.upper_bounds st.rng).1 cfg.objective with e | po
  · rw [heval] at h
    simp at h
  · rw [heval] at h
    rw [Prod.mk.injEq] at h
    obtain ⟨rfl, -⟩ := h
    unfold sce.evaluate_initial_population at heval
    rcases hmap : (sce.generate_initial_population st.population.length
        cfg.lower_bounds cfg.upper_bounds st.rng).1.mapM
        (sce.evalRow simulateF evalSimF data metadata observations)
      with e | ys
    · rw [hmap, except_bind_err] at heval
      exact absurd heval (by simp)
    · rw [hmap, except_bind_ok, except_pure, Except.ok.injEq] at heval
      subst heval
      have hf2 := mapM_ok_forall₂ _ _ ys hmap
      have hylen : ys.length =
          (sce.generate_initial_population st.population.length
            cfg.lower_bounds cfg.upper_bounds st.rng).1.length :=
        hf2.length_eq.symm
      have hpoplen := generate_initial_population_length st.population.length
        cfg.lower_bounds cfg.upper_bounds st.rng
      have hzlen : ((sce.generate_initial_population st.population.length
          cfg.lower_bounds cfg.upper_bounds st.rng).1.zip ys).length =
          st.population.length := by
        rw [List.length_zip, hylen, hpoplen, min_self]
      refine ⟨⟨?_, ?_, ?_, ?_, ?_⟩, rfl⟩
      · dsimp only
        rw [(sort_population_length _ _ _ _).1, (sort_population_length _ _ _ _).2]
      · dsimp only
        rw [(sort_population_length _ _ _ _).1, hzlen, hplen]
      · dsimp only
        intro r hr
        rcases sort_population_mem_fst _ _ _ _ r hr with ⟨q, hq, rfl⟩
        exact generate_initial_population_rowOK st.population.length
          cfg.lower_bounds cfg.upper_bounds st.rng hcfg.bounds_len
          hcfg.bounds_le hstream _ (List.of_mem_zip hq).1
      · dsimp only
        exact List.Pairwise.imp (fun hx => hx) (sort_population_sorted _ _ _ _)
      · dsimp only
        intro q hq
        have hq2 := sort_population_mem_pair _ _ _ _ q hq
        exact (List.forall₂_iff_zip.mp hf2).2 hq2

end Hydro

namespace Hydro

theorem step_preserves
    {Data Meta Obs Sim ε : Type}
    (simulateF : List ℚ → Data → Meta → Except ε Sim)
    (evalSimF : Obs → Sim → Except ε (List F))
    (cfg : sce.SceConfig) (data : Data) (metadata : Meta)
    (observations : Obs) (st : sce.SceState)
    (hcfg : sce.CfgOK cfg)
    (hwf : sce.WF simulateF evalSimF cfg data metadata observations st)
    (hstream : sce.StreamOK st.rng.stream) :
    ∀ st2 res, sce.step simulateF evalSimF cfg data metadata observations st =
        (st2, .ok res) →
      sce.WF simulateF evalSimF cfg data metadata observations st2 ∧
      sce.dirLe (sce.isMinimization cfg.objective)
        (sce.objVal (sce.objectiveIdx cfg.objective)
          (st2.objectives.getD 0 []))
        (sce.objVal (sce.objectiveIdx cfg.objective)
          (st.objectives.getD 0 [])) = true ∧
      st2.rng.stream = st.rng.stream := by
  intro st2 res h
  have hnpc : 1 ≤ cfg.n_per_complex := by
    unfold sce.SceConfig.n_per_complex
    omega
  have hns : 2 ≤ cfg.n_simplex := by
    unfold sce.SceConfig.n_simplex
    have := hcfg.params_pos
    omega
  unfold sce.step at h
  cases hdone : st.done with
  | true =>
      rw [hdone] at h
      simp only [if_true] at h
      rcases hsim : simulateF st.params data metadata with e | bs
      · rw [hsim] at h
        simp at h
      · rw [hsim] at h
        rw [Prod.mk.injEq] at h
        obtain ⟨rfl, -⟩ := h
        exact ⟨hwf, dirLe_refl _ _, rfl⟩
  | false =>
      rw [hdone] at h
      simp only [Bool.false_eq_true, if_false] at h
      obtain ⟨hPlen, hPcx, hPhead1, hPhead2⟩ := partition_props simulateF
        evalSimF data metadata observations cfg.lower_bounds cfg.upper_bounds
        (sce.objectiveIdx cfg.objective) (sce.isMinimization cfg.objective)
        cfg.n_complexes cfg.n_per_complex st.population st.objectives
        hcfg.complexes_pos hnpc hwf.len_pop hwf.len_obj hwf.rows
        (List.Pairwise.imp (fun hx => hx) hwf.sorted) hwf.cons
      rcases hev : sce.evolve_complexes simulateF evalSimF cfg.lower_bounds
        cfg.upper_bounds data metadata observations
        (sce.objectiveIdx cfg.objective) (sce.isMinimization cfg.objective)
        cfg.n_per_complex cfg.n_simplex cfg.n_evolution_steps
        (sce.partition_into_complexes st.population st.objectives
          cfg.n_complexes) st.n_calls st.rng with ⟨r0, rngA⟩
      rw [hev] at h
      cases r0 with
      | error e =>
          dsimp only at h
          simp at h
      | ok er =>
          dsimp only at h
          obtain ⟨hF2, hstreamA⟩ := evolve_complexes_props simulateF evalSimF
            cfg.lower_bounds cfg.upper_bounds data metadata observations
            (sce.objectiveIdx cfg.objective)
            (sce.isMinimization cfg.objective) cfg.n_per_complex
            cfg.n_simplex cfg.n_evolution_steps hcfg.bounds_len
            hcfg.bounds_le hnpc hns
            (sce.partition_into_complexes st.population st.objectives
              cfg.n_complexes) st.n_calls st.rng hPcx hstream er rngA
            (by rw [hev])
          have hlen2 : er.1.length = cfg.n_complexes := by
            rw [← hF2.length_eq, hPlen]
          have hall2 : ∀ c ∈ er.1, CxOK simulateF evalSimF data metadata
              observations cfg.lower_bounds cfg.upper_bounds
              (sce.objectiveIdx cfg.objective)
              (sce.isMinimization cfg.objective) cfg.n_per_complex c := by
            intro c hc
            rcases forall₂_mem_right hF2 c hc with ⟨a, _, hr⟩
            exact hr.1
          have hne2 : er.1 ≠ [] := by
            intro hx
            rw [hx] at hlen2
            simp at hlen2
            have := hcfg.complexes_pos
            omega
          obtain ⟨hm1, hm2, hmpair, hmsorted, hmfst, hmhead⟩ := merge_props
            er.1 (sce.objectiveIdx cfg.objective)
            (sce.isMinimization cfg.objective) cfg.n_per_complex
            (fun c hc => ⟨(hall2 c hc).len_cx, (hall2 c hc).len_cf⟩)
            hne2 hnpc
          have hPne : sce.partition_into_complexes st.population st.objectives
              cfg.n_complexes ≠ [] := by
            intro hx
            rw [hx] at hPlen
            simp only [List.length_nil] at hPlen
            have := hcfg.complexes_pos
            omega
          have hrel0 := forall₂_getD_zero hF2 hPne ⟨[], []⟩ ⟨[], []⟩
          rcases hsim : simulateF ((sce.merge_complexes er.1
              (sce.objectiveIdx cfg.objective)
              (sce.isMinimization cfg.objective)).1.getD 0 []) data metadata
            with e | bs
          · rw [hsim] at h
            simp at h
          · rw [hsim] at h
            rw [Prod.mk.injEq] at h
            obtain ⟨rfl, -⟩ := h
            refine ⟨⟨?_, ?_, ?_, ?_, ?_⟩, ?_, ?_⟩
            · dsimp only
              rw [hm1, hm2]
            · dsimp only
              rw [hm1, hlen2]
              rfl
            · dsimp only
              intro r hr
              rcases hmfst r hr with ⟨c, hc, hrc⟩
              exact (hall2 c hc).rows r hrc
            · dsimp only
              exact List.Pairwise.imp (fun hx => hx) hmsorted
            · dsimp only
              intro q hq
              rcases hmpair q hq with ⟨c, hc, hqc⟩
              exact (hall2 c hc).cons q hqc
            · dsimp only
              rw [← hPhead2]
              exact dirLe_trans _ hmhead hrel0.2
            · exact hstreamA

end Hydro

namespace Hydro

theorem runSteps_mono
    {Data Meta Obs Sim ε : Type}
    (simulateF : List ℚ → Data → Meta → Except ε Sim)
    (evalSimF : Obs → Sim → Except ε (List F))
    (cfg : sce.SceConfig) (data : Data) (metadata : Meta)
    (observations : Obs) (hcfg : sce.CfgOK cfg) :
    ∀ (n : ℕ) (st : sce.SceState),
      sce.WF simulateF evalSimF cfg data metadata observations st →
      sce.StreamOK st.rng.stream →
      (∀ e ∈ (sce.runSteps simulateF evalSimF cfg data metadata observations
        n st).2, isOkE e = true) →
      sce.WF simulateF evalSimF cfg data metadata observations
        (sce.runSteps simulateF evalSimF cfg data metadata observations
          n st).1 ∧
      sce.dirLe (sce.isMinimization cfg.objective)
        (sce.objVal (sce.objectiveIdx cfg.objective)
          ((sce.runSteps simulateF evalSimF cfg data metadata observations
            n st).1.objectives.getD 0 []))
        (sce.objVal (sce.objectiveIdx cfg.objective)
          (st.objectives.getD 0 [])) = true ∧
      (sce.runSteps simulateF evalSimF cfg data metadata observations
        n st).1.rng.stream = st.rng.stream := by
  intro n
  induction n with
  | zero =>
      intro st hwf hstream _
      exact ⟨hwf, dirLe_refl _ _, rfl⟩
  | succ m ih =>
      intro st hwf hstream hok
      simp only [sce.runSteps] at hok ⊢
      rcases hstep : sce.step simulateF evalSimF cfg data metadata
        observations st with ⟨st1, res0⟩
      rw [hstep] at hok
      dsimp only at hok ⊢
      cases res0 with
      | error e =>
          have := hok _ (List.mem_cons_self _ _)
          simp [isOkE] at this
      | ok v =>
          obtain ⟨hwf1, hmono1, hstream1⟩ := step_preserves simulateF evalSimF
            cfg data metadata observations st hcfg hwf hstream st1 v hstep
          have hstream1b : sce.StreamOK st1.rng.stream := by
            rw [hstream1]; exact hstream
          obtain ⟨hwf2, hmono2, hstream2⟩ := ih st1 hwf1 hstream1b
            (fun e he => hok e (List.mem_cons_of_mem _ he))
          exact ⟨hwf2, dirLe_trans _ hmono2 hmono1,
            by rw [hstream2, hstream1]⟩

end Hydro

namespace Hydro

/-- The example stream only emits values in [0, 1). -/
theorem ex_streamOK : sce.StreamOK ex.stream := by
  intro k
  unfold ex.stream
  split_ifs <;> norm_num

/-- The example configuration satisfies the configuration facts. -/
theorem ex_cfgOK : sce.CfgOK ex.cfg :=
  ⟨by decide, by decide, by decide, by decide⟩

/-- The freshly constructed state carries the seed stream. -/
theorem ex_st0_rng : ex.st0.rng.stream = ex.stream := rfl

unseal Rat.add Rat.mul Rat.inv Rat.sub in
/-- The example init succeeds and lands on the recorded state. -/
theorem ex_init_ok : sce.init ex.modelFn ex.scoreFn ex.cfg () () [(2 : ℚ)]
    ex.st0 = (ex.stInit, .ok ()) := by
  have h2 : (sce.init ex.modelFn ex.scoreFn ex.cfg () () [(2 : ℚ)]
      ex.st0).2 = .ok () := by decide
  rw [← h2]
  rfl

/-- The example initial state is well formed. -/
theorem ex_stInit_WF : sce.WF ex.modelFn ex.scoreFn ex.cfg () () [(2 : ℚ)]
    ex.stInit :=
  (init_establishes ex.modelFn ex.scoreFn ex.cfg () () [(2 : ℚ)] ex.st0
    ex_cfgOK (by rw [ex_st0_rng]; exact ex_streamOK) (by decide) ex.stInit
    ex_init_ok).1

/-- The example initial state carries the seed stream. -/
theorem ex_stInit_streamOK : sce.StreamOK ex.stInit.rng.stream := by
  rw [(init_establishes ex.modelFn ex.scoreFn ex.cfg () () [(2 : ℚ)] ex.st0
    ex_cfgOK (by rw [ex_st0_rng]; exact ex_streamOK) (by decide) ex.stInit
    ex_init_ok).2, ex_st0_rng]
  exact ex_streamOK

/-- C4: after a successful `init` every stored parameter row lies
componentwise inside [lower, upper]; a successful `step` from a
well-formed state keeps every stored row inside the box; and every
candidate accepted by `evolve_complex_step` (the reflection, which is
replaced by a uniform in-bounds sample before evaluation when any
component violates the bounds, the contraction, or the random
replacement) lies inside the box. -/
theorem C4_bounds
    {Data Meta Obs Sim ε : Type}
    (simulateF : List ℚ → Data → Meta → Except ε Sim)
    (evalSimF : Obs → Sim → Except ε (List F))
    (cfg : sce.SceConfig) (data : Data) (metadata : Meta)
    (observations : Obs) (st : sce.SceState)
    (hcfg : sce.CfgOK cfg)
    (hstream : sce.StreamOK st.rng.stream)
    (hplen : st.population.length = cfg.population_size) :
    (∀ st2, sce.init simulateF evalSimF cfg data metadata observations st =
        (st2, .ok ()) →
      ∀ r ∈ st2.population, sce.rowOK cfg.lower_bounds cfg.upper_bounds r) ∧
    (sce.WF simulateF evalSimF cfg data metadata observations st →
      ∀ st2 res, sce.step simulateF evalSimF cfg data metadata observations
          st = (st2, .ok res) →
      ∀ r ∈ st2.population, sce.rowOK cfg.lower_bounds cfg.upper_bounds r) ∧
    (∀ (s : List (List ℚ)) (sf : List (List F)) (rng : Rng)
        (ev : sce.StepEval) (rng2 : Rng),
      (∀ r ∈ s, sce.rowOK cfg.lower_bounds cfg.upper_bounds r) →
      2 ≤ s.length → sce.StreamOK rng.stream →
      sce.evolve_complex_step simulateF evalSimF s sf cfg.lower_bounds
        cfg.upper_bounds data metadata observations
        (sce.objectiveIdx cfg.objective) (sce.isMinimization cfg.objective)
        rng = (.ok ev, rng2) →
      sce.rowOK cfg.lower_bounds cfg.upper_bounds ev.snew) := by
  refine ⟨?_, ?_, ?_⟩
  · intro st2 h r hr
    exact ((init_establishes simulateF evalSimF cfg data metadata
      observations st hcfg hstream hplen st2 h).1).rows r hr
  · intro hwf st2 res h r hr
    exact ((step_preserves simulateF evalSimF cfg data metadata observations
      st hcfg hwf hstream st2 res h).1).rows r hr
  · intro s sf rng ev rng2 hs hslen hstream2 hstep
    exact (evolve_complex_step_props simulateF evalSimF s sf cfg.lower_bounds
      cfg.upper_bounds data metadata observations _ _ rng hcfg.bounds_len
      hcfg.bounds_le hs hslen hstream2 ev rng2 hstep).1

unseal Rat.add Rat.mul Rat.inv Rat.sub in
theorem C4_bounds_witness :
    (∀ st2, sce.init ex.modelFn ex.scoreFn ex.cfg () () [(2 : ℚ)] ex.st0 =
        (st2, .ok ()) →
      ∀ r ∈ st2.population,
        sce.rowOK ex.cfg.lower_bounds ex.cfg.upper_bounds r) ∧
    (sce.WF ex.modelFn ex.scoreFn ex.cfg () () [(2 : ℚ)] ex.st0 →
      ∀ st2 res, sce.step ex.modelFn ex.scoreFn ex.cfg () () [(2 : ℚ)]
          ex.st0 = (st2, .ok res) →
      ∀ r ∈ st2.population,
        sce.rowOK ex.cfg.lower_bounds ex.cfg.upper_bounds r) ∧
    (∀ (s : List (List ℚ)) (sf : List (List F)) (rng : Rng)
        (ev : sce.StepEval) (rng2 : Rng),
      (∀ r ∈ s, sce.rowOK ex.cfg.lower_bounds ex.cfg.upper_bounds r) →
      2 ≤ s.length → sce.StreamOK rng.stream →
      sce.evolve_complex_step ex.modelFn ex.scoreFn s sf
        ex.cfg.lower_bounds ex.cfg.upper_bounds () () [(2 : ℚ)]
        (sce.objectiveIdx ex.cfg.objective)
        (sce.isMinimization ex.cfg.objective) rng = (.ok ev, rng2) →
      sce.rowOK ex.cfg.lower_bounds ex.cfg.upper_bounds ev.snew) :=
  C4_bounds ex.modelFn ex.scoreFn ex.cfg () () [(2 : ℚ)] ex.st0 ex_cfgOK
    (by rw [ex_st0_rng]; exact ex_streamOK) (by decide)

/-- C5: across any run of successful `step` calls from a well-formed
state, the stored best objective (objectives row 0 in the selected
column) never worsens in the direction of the selected objective: under
the total_cmp order the best RMSE never increases and the best NSE or
KGE never decreases, because the sorted row 0 is carried through the
partition into complexes, the simplex evolution, and the merge and
re-sort. -/
theorem C5_monotone_best
    {Data Meta Obs Sim ε : Type}
    (simulateF : List ℚ → Data → Meta → Except ε Sim)
    (evalSimF : Obs → Sim → Except ε (List F))
    (cfg : sce.SceConfig) (data : Data) (metadata : Meta)
    (observations : Obs) (st : sce.SceState)
    (hcfg : sce.CfgOK cfg)
    (hwf : sce.WF simulateF evalSimF cfg data metadata observations st)
    (hstream : sce.StreamOK st.rng.stream)
    (n : ℕ)
    (hok : ∀ e ∈ (sce.runSteps simulateF evalSimF cfg data metadata
      observations n st).2, isOkE e = true) :
    sce.dirLe (sce.isMinimization cfg.objective)
      (sce.objVal (sce.objectiveIdx cfg.objective)
        ((sce.runSteps simulateF evalSimF cfg data metadata observations
          n st).1.objectives.getD 0 []))
      (sce.objVal (sce.objectiveIdx cfg.objective)
        (st.objectives.getD 0 [])) = true :=
  (runSteps_mono simulateF evalSimF cfg data metadata observations hcfg n st
    hwf hstream hok).2.1

unseal Rat.add Rat.mul Rat.inv Rat.sub in
theorem C5_monotone_best_witness :
    sce.dirLe (sce.isMinimization ex.cfg.objective)
      (sce.objVal (sce.objectiveIdx ex.cfg.objective)
        ((sce.runSteps ex.modelFn ex.scoreFn ex.cfg () () [(2 : ℚ)] 1
          ex.stInit).1.objectives.getD 0 []))
      (sce.objVal (sce.objectiveIdx ex.cfg.objective)
        (ex.stInit.objectives.getD 0 [])) = true :=
  C5_monotone_best ex.modelFn ex.scoreFn ex.cfg () () [(2 : ℚ)] ex.stInit
    ex_cfgOK ex_stInit_WF ex_stInit_streamOK 1 (by decide)

end Hydro
